import Mathlib

/-!
Shallow embedding of the nodedns repository (github.com/jrockway/nodedns):
the node registry and projection code in pkg/k8s/k8s.go, the DNS diff and
reconciliation code in pkg/dns/dns.go, and the parts of Go's net package
(net.IP, ParseIP, To4, To16, String) that those files depend on.

Go strings are modelled as byte lists (`Str := List Nat`), Go's net.IP as a
byte list (`IP := List Nat`, the empty list standing for a nil net.IP), and
Go maps as association lists with last-write-wins insertion.
-/

set_option maxRecDepth 20000

namespace NodeDNS

/-- Go string, as its byte sequence. -/
abbrev Str := List Nat

/-- Go net.IP: a byte slice; `[]` models a nil net.IP. -/
abbrev IP := List Nat

/-- Bytes of a Lean string literal, used to write Go string constants. -/
def strBytes (s : String) : Str := s.data.map Char.toNat

/-! ## Go net package model -/

/-- Leading 12 bytes of an IPv4-in-IPv6 address (Go's v4InV6Prefix). -/
def v4InV6Header : List Nat := [0, 0, 0, 0, 0, 0, 0, 0, 0, 0, 255, 255]

/-- Go net.IP.To4: a 4-byte address as is, the low 4 bytes of an
IPv4-in-IPv6 16-byte address, nil otherwise. -/
def ipTo4 (ip : IP) : IP :=
  if ip.length = 4 then ip
  else if ip.length = 16 ∧ ip.take 12 = v4InV6Header then ip.drop 12
  else []

/-- Go net.IP.To16: widen a 4-byte address with the v4-in-v6 header, keep a
16-byte address, nil otherwise. -/
def ipTo16 (ip : IP) : IP :=
  if ip.length = 4 then v4InV6Header ++ ip
  else if ip.length = 16 then ip
  else []

/-- Go net's ubtoa: decimal digits of a byte value, no leading zeros. -/
def ubtoa (v : Nat) : List Nat :=
  if v < 10 then [v + 48]
  else if v < 100 then [v / 10 + 48, v % 10 + 48]
  else [v / 100 + 48, v / 10 % 10 + 48, v % 10 + 48]

/-- Value of a decimal digit string (helper for injectivity proofs). -/
def decVal (l : List Nat) : Nat := l.foldl (fun a d => a * 10 + (d - 48)) 0

/-- Go net's hexDigit table: code of the hex digit for a nibble. -/
def hexDigit (n : Nat) : Nat := if n < 10 then n + 48 else n + 87

/-- Go net's appendHex: hex digits of a value, high nibble first, leading
zero nibbles skipped, a single 0 digit for the value 0.  Go emits the
nibble at position j exactly when the value shifted right by 4j is
positive. -/
def appendHexGo (i : Nat) : List Nat :=
  if i = 0 then [48]
  else (List.range 8).reverse.filterMap fun j =>
    let v := i / 16 ^ j
    if 0 < v then some (hexDigit (v % 16)) else none

/-- Value of a lowercase hex digit code (helper for injectivity proofs). -/
def hexValD (d : Nat) : Nat := if d < 58 then d - 48 else d - 87

/-- Value of a hex digit string (helper for injectivity proofs). -/
def hexVal (l : List Nat) : Nat := l.foldl (fun a d => a * 16 + hexValD d) 0

/-- A byte is the code of a lowercase hex digit. -/
def isHexCode (d : Nat) : Prop := (48 ≤ d ∧ d ≤ 57) ∨ (97 ≤ d ∧ d ≤ 102)

instance (d : Nat) : Decidable (isHexCode d) := by
  unfold isHexCode; infer_instance

/-- Length of the run of zero groups at the head of a group list. -/
def zeroRunLen : List Nat → Nat
  | [] => 0
  | g :: gs => if g = 0 then zeroRunLen gs + 1 else 0

/-- Scanning loop of Go net.IP.String's longest-zero-run search, on 16-bit
group lists (Go walks the byte pairs; we walk the groups).  `i` is the index
of the head of the remaining list in the original list; `best` is the best
run found so far, as a half-open interval.  When a strictly longer run is
found Go jumps past it (and past the group that ended it).  The loop is
bounded by Go's loop counter; the fuel mirrors that bound (each iteration
consumes at least one group). -/
def findZeroRun : Nat → List Nat → Nat → Option (Nat × Nat) → Option (Nat × Nat)
  | _, [], _, best => best
  | 0, _ :: _, _, best => best
  | fuel + 1, g :: gs, i, best =>
    let r := zeroRunLen (g :: gs)
    let bestLen := match best with
      | none => 0
      | some p => p.2 - p.1
    if 0 < r ∧ bestLen < r then
      findZeroRun fuel (gs.drop r) (i + r + 1) (some (i, i + r))
    else
      findZeroRun fuel gs (i + 1) best

/-- Longest zero-group run used by Go net.IP.String; runs of a single group
are not compressed (Go resets e0/e1 when e1-e0 <= 2 bytes). -/
def longestZeroRun (gs : List Nat) : Option (Nat × Nat) :=
  match findZeroRun gs.length gs 0 none with
  | none => none
  | some p => if p.2 - p.1 ≤ 1 then none else some p

/-- The 16-bit groups of a 16-byte address. -/
def toGroups : List Nat → List Nat
  | b0 :: b1 :: rest => (b0 * 256 + b1) :: toGroups rest
  | _ => []

/-- Join byte strings with a separator byte between them. -/
def joinSep (sep : Nat) : List (List Nat) → List Nat
  | [] => []
  | [t] => t
  | t :: ts => t ++ sep :: joinSep sep ts

/-- Body of Go net.IP.String for a 16-byte non-v4-mapped address: hex
groups separated by colons, with the longest zero run (of at least two
groups) compressed to a double colon. -/
def ipStringV6 (p : List Nat) : Str :=
  let gs := toGroups p
  match longestZeroRun gs with
  | none => joinSep 58 (gs.map appendHexGo)
  | some e =>
    joinSep 58 ((gs.take e.1).map appendHexGo) ++ 58 :: 58 ::
      joinSep 58 ((gs.drop e.2).map appendHexGo)

/-- Go net.IP.String: "<nil>" for a nil address, dotted quad for an
address with a 4-byte form, the compressed hex form for other 16-byte
addresses.  (The "?"+hex fallback for other lengths never arises in this
program; we return the hex-free marker Go would never produce for the
lengths we care about.) -/
def ipString (ip : IP) : Str :=
  if ip = [] then [60, 110, 105, 108, 62]
  else
    match ipTo4 ip with
    | [a, b, c, d] => ubtoa a ++ 46 :: (ubtoa b ++ 46 :: (ubtoa c ++ 46 :: ubtoa d))
    | _ => if ip.length = 16 then ipStringV6 ip else [63]

/-! ### Decoder helpers

These are not part of the source; they are inverses used to prove that
`ipString` is injective on the addresses this program builds. -/

/-- Split a byte string at every colon. -/
def splitOnColon : List Nat → List (List Nat)
  | [] => [[]]
  | c :: rest =>
    if c = 58 then [] :: splitOnColon rest
    else
      match splitOnColon rest with
      | t :: ts => (c :: t) :: ts
      | [] => [[c]]

/-- Split a byte string at its first double colon, when it has one. -/
def findDoubleColon : List Nat → Option (List Nat × List Nat)
  | [] => none
  | [_] => none
  | c :: d :: rest =>
    if c = 58 ∧ d = 58 then some ([], rest)
    else (findDoubleColon (d :: rest)).map fun p => (c :: p.1, p.2)

/-- No two adjacent colons anywhere in the string (proof device). -/
def noDC : List Nat → Prop
  | [] => True
  | [_] => True
  | c :: d :: rest => ¬(c = 58 ∧ d = 58) ∧ noDC (d :: rest)

/-- Inverse of `ipStringV6` on its image: recover the group list from the
compressed hex representation. -/
def decodeV6 (s : List Nat) : List Nat :=
  match findDoubleColon s with
  | none => (splitOnColon s).map hexVal
  | some p =>
    let left := if p.1 = [] then [] else (splitOnColon p.1).map hexVal
    let right := if p.2 = [] then [] else (splitOnColon p.2).map hexVal
    left ++ List.replicate (8 - left.length - right.length) 0 ++ right

/-- Split a byte string at its first dot, when it has one. -/
def findDot : List Nat → Option (List Nat × List Nat)
  | [] => none
  | c :: rest =>
    if c = 46 then some ([], rest)
    else (findDot rest).map fun p => (c :: p.1, p.2)

/-- Zero-or-not mask of a group list (proof device: the zero-run search
only looks at which groups are zero). -/
def maskZ (gs : List Nat) : List Bool := gs.map fun g => decide (g = 0)

/-- `zeroRunLen` on the mask. -/
def zeroRunLenB : List Bool → Nat
  | [] => 0
  | b :: bs => if b then zeroRunLenB bs + 1 else 0

/-- `findZeroRun` on the mask. -/
def findZeroRunB : Nat → List Bool → Nat → Option (Nat × Nat) → Option (Nat × Nat)
  | _, [], _, best => best
  | 0, _ :: _, _, best => best
  | fuel + 1, b :: bs, i, best =>
    let r := zeroRunLenB (b :: bs)
    let bestLen := match best with
      | none => 0
      | some p => p.2 - p.1
    if 0 < r ∧ bestLen < r then
      findZeroRunB fuel (bs.drop r) (i + r + 1) (some (i, i + r))
    else
      findZeroRunB fuel bs (i + 1) best

/-- Executable check of the zero-run search's correctness on 8-group
masks: any run it reports, and that survives the two-group minimum, is an
in-bounds interval of true (zero) positions. -/
def runSpecBCheck (bs : List Bool) : Bool :=
  match findZeroRunB bs.length bs 0 none with
  | none => true
  | some p =>
    if 1 < p.2 - p.1 then
      decide (p.1 < p.2) && decide (p.2 ≤ 8) &&
        ((List.range 8).all fun k =>
          !(decide (p.1 ≤ k) && decide (k < p.2)) || decide (bs.get? k = some true))
    else true

/-! ### Go net.ParseIP model -/

/-- Loop of Go net's dtoi (decimal scan with the 0xFFFFFF cap). -/
def dtoiLoop : List Nat → Nat → Nat → Nat × Nat × Bool
  | [], n, i => (n, i, true)
  | c :: rest, n, i =>
    if 48 ≤ c ∧ c ≤ 57 then
      let n2 := n * 10 + (c - 48)
      if 16777215 ≤ n2 then (16777215, i, false)
      else dtoiLoop rest n2 (i + 1)
    else (n, i, true)

/-- Go net's dtoi: decimal value, digit count, success flag. -/
def dtoi (s : List Nat) : Nat × Nat × Bool :=
  let r := dtoiLoop s 0 0
  if r.2.1 = 0 then (0, 0, false) else r

/-- Loop of Go net's xtoi (hex scan with the 0xFFFFFF cap). -/
def xtoiLoop : List Nat → Nat → Nat → Nat × Nat × Bool
  | [], n, i => (n, i, true)
  | c :: rest, n, i =>
    let dv : Option Nat :=
      if 48 ≤ c ∧ c ≤ 57 then some (c - 48)
      else if 97 ≤ c ∧ c ≤ 102 then some (c - 97 + 10)
      else if 65 ≤ c ∧ c ≤ 70 then some (c - 65 + 10)
      else none
    match dv with
    | none => (n, i, true)
    | some d =>
      let n2 := n * 16 + d
      if 16777215 ≤ n2 then (0, i, false)
      else xtoiLoop rest n2 (i + 1)

/-- Go net's xtoi: hex value, digit count, success flag. -/
def xtoi (s : List Nat) : Nat × Nat × Bool :=
  let r := xtoiLoop s 0 0
  if r.2.1 = 0 then (0, 0, false) else r

/-- Field loop of Go net's parseIPv4: four dot-separated decimal fields,
each at most 255, nothing left over. -/
def parseV4Loop : Nat → List Nat → List Nat → Option (List Nat)
  | 0, s, acc => if s = [] then some acc else none
  | fuel + 1, s, acc =>
    let afterDot : Option (List Nat) :=
      if acc = [] then some s
      else
        match s with
        | 46 :: r => some r
        | _ => none
    match afterDot with
    | none => none
    | some s2 =>
      let r := dtoi s2
      if r.2.2 ∧ r.1 ≤ 255 then parseV4Loop fuel (s2.drop r.2.1) (acc ++ [r.1])
      else none

/-- Go net's parseIPv4: a dotted quad parsed into the 16-byte
IPv4-in-IPv6 form (Go's IPv4 constructor), nil on failure. -/
def parseV4 (s : List Nat) : IP :=
  match parseV4Loop 4 s [] with
  | some bytes => v4InV6Header ++ bytes
  | none => []

/-- Main loop of Go net's parseIPv6.  `chunks` holds the bytes written so
far (Go's index i is its length) and `ell` the ellipsis position.  Returns
the chunks, ellipsis and unconsumed rest on loop exit, or none on a parse
failure. -/
def parseV6Loop : Nat → List Nat → List Nat → Option Nat →
    Option (List Nat × Option Nat × List Nat)
  | 0, s, chunks, ell => some (chunks, ell, s)
  | fuel + 1, s, chunks, ell =>
    if 16 ≤ chunks.length then some (chunks, ell, s)
    else
      let r := xtoi s
      if ¬r.2.2 ∨ 65535 < r.1 then none
      else if r.2.1 < s.length ∧ s.get? r.2.1 = some 46 then
        if (ell = none ∧ chunks.length ≠ 12) ∨ 16 < chunks.length + 4 then none
        else
          match parseV4 s with
          | [] => none
          | ip4 => some (chunks ++ ip4.drop 12, ell, [])
      else
        let chunks2 := chunks ++ [r.1 / 256, r.1 % 256]
        let s1 := s.drop r.2.1
        match s1 with
        | [] => some (chunks2, ell, [])
        | 58 :: s2 =>
          match s2 with
          | [] => none
          | 58 :: s3 =>
            if ell.isSome then none
            else if s3 = [] then some (chunks2, some chunks2.length, [])
            else parseV6Loop fuel s3 chunks2 (some chunks2.length)
          | _ => parseV6Loop fuel s2 chunks2 ell
        | _ => none

/-- Go net's parseIPv6 with a possible leading double colon handled first
and the ellipsis expanded afterwards; nil on failure. -/
def parseV6 (s : List Nat) : IP :=
  let start : Option (List Nat × Option Nat) :=
    match s with
    | 58 :: 58 :: rest => some (rest, some 0)
    | _ => some (s, none)
  match start with
  | none => []
  | some st =>
    if st.2 = some 0 ∧ st.1 = [] then List.replicate 16 0
    else
      match parseV6Loop 16 st.1 [] st.2 with
      | none => []
      | some r =>
        if r.2.2 ≠ [] then []
        else if r.1.length < 16 then
          match r.2.1 with
          | none => []
          | some e =>
            r.1.take e ++ List.replicate (16 - r.1.length) 0 ++ r.1.drop e
        else if r.2.1.isSome then []
        else r.1

/-- Index of the last occurrence of a byte in a string. -/
def lastIdx (c : Nat) : List Nat → Option Nat
  | [] => none
  | b :: rest =>
    match lastIdx c rest with
    | some i => some (i + 1)
    | none => if b = c then some 0 else none

/-- Go net's splitHostZone: drop a "%zone" suffix (the percent sign must
not be the first byte). -/
def splitHostZone (s : List Nat) : List Nat :=
  match lastIdx 37 s with
  | some i => if 0 < i then s.take i else s
  | none => s

/-- First dot or colon in a string: `some true` for a dot, `some false`
for a colon (drives Go net.ParseIP's dispatch). -/
def findDotOrColon : List Nat → Option Bool
  | [] => none
  | c :: rest =>
    if c = 46 then some true
    else if c = 58 then some false
    else findDotOrColon rest

/-- Go net.ParseIP: dispatch on the first dot or colon; nil when the
string has neither. -/
def parseIP (s : List Nat) : IP :=
  match findDotOrColon s with
  | some true => parseV4 s
  | some false => parseV6 (splitHostZone s)
  | none => []

/-! ## Go map model

Go maps keyed by strings are modelled as association lists with unique
keys; insertion overwrites in place, iteration order is the list order. -/

/-- Whether a key is present (Go's `_, ok := m[k]`). -/
def mapHasKey {α : Type} (m : List (Str × α)) (k : Str) : Bool :=
  m.any fun p => decide (p.1 = k)

/-- Go's `m[k] = v`: overwrite in place or append. -/
def mapInsert {α : Type} (m : List (Str × α)) (k : Str) (v : α) : List (Str × α) :=
  if mapHasKey m k then m.map fun p => if p.1 = k then (k, v) else p
  else m ++ [(k, v)]

/-- Go's `m[k]` read. -/
def mapLookup {α : Type} (m : List (Str × α)) (k : Str) : Option α :=
  match m.find? (fun p => decide (p.1 = k)) with
  | some p => some p.2
  | none => none

/-- Go's `delete(m, k)`. -/
def mapDelete {α : Type} (m : List (Str × α)) (k : Str) : List (Str × α) :=
  m.filter fun p => decide (p.1 ≠ k)

/-- The key list of a map (Go's `for key := range m`). -/
def mapKeys {α : Type} (m : List (Str × α)) : List Str := m.map Prod.fst

/-! ## pkg/k8s model -/

/-- Node from pkg/k8s: a member name and its classified addresses. -/
structure Node where
  name : Str
  internal : List IP
  external : List IP
deriving DecidableEq

/-- Record from pkg/k8s: one projection (internal or external) of the
node table. -/
structure Record where
  isInternal : Bool
  ips : List IP
deriving DecidableEq

/-- The node table of a NodeStore (Go's map[string]Node). -/
abbrev NodeMap := List (Str × Node)

/-- The canonical dedup key used by cleanupRecord: `addr.To16().String()`. -/
def ipKey (a : IP) : Str := ipString (ipTo16 a)

/-- The dedup map built by cleanupRecord's first loop. -/
def buildDedup (ips : List IP) : List (Str × IP) :=
  ips.foldl (fun m a => mapInsert m (ipKey a) a) []

/-- Go's sort.Strings on our byte-list strings (lexicographic byte
order). -/
def sortStrs (l : List Str) : List Str := l.insertionSort (· ≤ ·)

/-- cleanupRecord from pkg/k8s, acting on the IP list of a Record:
deduplicate by canonical key, sort the keys, emit one representative per
key in sorted key order. -/
def cleanupRecord (ips : List IP) : List IP :=
  let dedup := buildDedup ips
  let keys := sortStrs (mapKeys dedup)
  keys.filterMap fun k => mapLookup dedup k

/-- externalRecord from pkg/k8s: concatenate every node's external
addresses in table order and clean up. -/
def externalRecord (nodes : NodeMap) : Record :=
  ⟨false, cleanupRecord (nodes.map fun p => p.2.external).flatten⟩

/-- internalRecord from pkg/k8s: concatenate every node's internal
addresses in table order and clean up. -/
def internalRecord (nodes : NodeMap) : Record :=
  ⟨true, cleanupRecord (nodes.map fun p => p.2.internal).flatten⟩

/-- Go string constants from k8s.io/api/core/v1. -/
def nodeReadyStr : Str := strBytes "Ready"

/-- v1.ConditionTrue. -/
def conditionTrueStr : Str := strBytes "True"

/-- v1.NodeExternalIP. -/
def nodeExternalIPStr : Str := strBytes "ExternalIP"

/-- v1.NodeInternalIP. -/
def nodeInternalIPStr : Str := strBytes "InternalIP"

/-- One entry of v1.NodeStatus.Conditions. -/
structure V1NodeCondition where
  condType : Str
  status : Str
deriving DecidableEq

/-- One entry of v1.NodeStatus.Addresses. -/
structure V1NodeAddress where
  addrType : Str
  address : Str
deriving DecidableEq

/-- The part of a v1.Node that toNode reads. -/
structure V1Node where
  name : Str
  unschedulable : Bool
  conditions : List V1NodeCondition
  addresses : List V1NodeAddress
deriving DecidableEq

/-- The raw dynamically-typed object handed to the cache.Store: either a
*v1.Node or a value of the wrong dynamic type. -/
inductive RawObj where
  | node (n : V1Node)
  | wrongType
deriving DecidableEq

/-- Address classification loop of toNode: ExternalIP and InternalIP
addresses are parsed and appended (note: the result of ParseIP is appended
even when it is nil); Hostname and DNS names are ignored. -/
def addAddresses (result : Node) (addrs : List V1NodeAddress) : Node :=
  addrs.foldl
    (fun acc addr =>
      let parsed := parseIP addr.address
      if addr.addrType = nodeExternalIPStr then
        { acc with external := acc.external ++ [parsed] }
      else if addr.addrType = nodeInternalIPStr then
        { acc with internal := acc.internal ++ [parsed] }
      else acc)
    result

/-- toNode from pkg/k8s: extract a Node from the raw object, returning an
address-free Node when the object has the wrong type, is unschedulable, or
reports a Ready condition whose status is not "True". -/
def toNode : RawObj → Node
  | .wrongType => ⟨[], [], []⟩
  | .node n =>
    let result : Node := ⟨n.name, [], []⟩
    if n.unschedulable then result
    else if n.conditions.any fun c =>
        decide (c.condType = nodeReadyStr) && decide (c.status ≠ conditionTrueStr) then
      result
    else addAddresses result n.addresses

/-- mutateNodes from pkg/k8s.  The before/after snapshots keep the
source's variable names, including its swap: `beforeInternal` and
`afterInternal` hold the EXTERNAL record and vice versa, exactly as in the
Go code.  The change list appends the internal-record comparison first
(Go compares beforeExternal/afterExternal first), then the
external-record comparison. -/
def mutateNodes (nodes : NodeMap) (f : NodeMap → NodeMap) : NodeMap × List Record :=
  let beforeInternal := externalRecord nodes
  let beforeExternal := internalRecord nodes
  let nodes2 := f nodes
  let afterInternal := externalRecord nodes2
  let afterExternal := internalRecord nodes2
  let changes :=
    (if beforeExternal ≠ afterExternal then [afterExternal] else []) ++
      (if beforeInternal ≠ afterInternal then [afterInternal] else [])
  (nodes2, changes)

/-- NodeStore.Add: upsert the extracted node, notify the changed records
in order, return nil.  The result is the new table, the notification
sequence, and the returned error. -/
def storeAdd (nodes : NodeMap) (obj : RawObj) : NodeMap × List Record × Option Str :=
  let node := toNode obj
  let r := mutateNodes nodes fun ns => mapInsert ns node.name node
  (r.1, r.2, none)

/-- NodeStore.Update: identical to Add apart from the op label used for
metrics and tracing, which is outside this model. -/
def storeUpdate (nodes : NodeMap) (obj : RawObj) : NodeMap × List Record × Option Str :=
  let node := toNode obj
  let r := mutateNodes nodes fun ns => mapInsert ns node.name node
  (r.1, r.2, none)

/-- NodeStore.Delete: remove the extracted node's key. -/
def storeDelete (nodes : NodeMap) (obj : RawObj) : NodeMap × List Record × Option Str :=
  let node := toNode obj
  let r := mutateNodes nodes fun ns => mapDelete ns node.name
  (r.1, r.2, none)

/-- NodeStore.Replace: swap the whole table for one rebuilt from the
list. -/
def storeReplace (nodes : NodeMap) (objs : List RawObj) : NodeMap × List Record × Option Str :=
  let r := mutateNodes nodes fun _ =>
    objs.foldl (fun m obj => let node := toNode obj; mapInsert m node.name node) []
  (r.1, r.2, none)

/-- NodeStore.Resync: notify the external record then the internal
record, unconditionally. -/
def storeResync (nodes : NodeMap) : List Record × Option Str :=
  ([externalRecord nodes, internalRecord nodes], none)

/-! ## pkg/dns model -/

/-- One godo.DomainRecord as used by getRecords. -/
structure DNSRecord where
  rtype : Str
  rname : Str
  rdata : Str
  rid : Nat
deriving DecidableEq

/-- Record type string "A". -/
def strA : Str := strBytes "A"

/-- Record type string "AAAA". -/
def strAAAA : Str := strBytes "AAAA"

/-- Inner loop of getRecords: merge one page's A/AAAA records for the
queried name into the address-to-id map (later records overwrite). -/
def recordsToSet (recs : List DNSRecord) (name : Str) (acc : List (Str × Nat)) :
    List (Str × Nat) :=
  recs.foldl
    (fun m rec =>
      if (rec.rtype = strA ∨ rec.rtype = strAAAA) ∧ rec.rname = name then
        mapInsert m rec.rdata rec.rid
      else m)
    acc

/-- Failures of getRecords: a failed page fetch, or the 100-page guard. -/
inductive FetchErr where
  | pageErr (page : Nat)
  | tooManyPages
deriving DecidableEq

/-- Page loop of getRecords; the provider is modelled as the list of
pages it would return, each with its is-last-page marker, indexed by page
number.  A missing page models a failed fetch. -/
def getRecordsLoop : Nat → Nat → List (List DNSRecord × Bool) → Str →
    List (Str × Nat) → Except FetchErr (List (Str × Nat))
  | 0, _, _, _, _ => .error .tooManyPages
  | fuel + 1, page, pages, name, acc =>
    match pages.get? page with
    | none => .error (.pageErr page)
    | some pr =>
      let acc2 := recordsToSet pr.1 name acc
      if pr.2 then .ok acc2
      else getRecordsLoop fuel (page + 1) pages name acc2

/-- getRecords from pkg/dns: fetch up to 100 pages and build the
address-to-id map for one record name. -/
def getRecords (pages : List (List DNSRecord × Bool)) (name : Str) :
    Except FetchErr (List (Str × Nat)) :=
  getRecordsLoop 100 0 pages name []

/-- Keys of Go's set-of-int map built from a list of ids:
deduplicate keeping first occurrences. -/
def dedupNats (l : List Nat) : List Nat :=
  l.foldl (fun acc n => if n ∈ acc then acc else acc ++ [n]) []

/-- diffDNS from pkg/dns: ids to delete, addresses to create, and the
deleted addresses (for logging), from the desired addresses and the
existing address-to-id map. -/
def diffDNS (desired : List IP) (existing : List (Str × Nat)) :
    List Nat × List IP × List Str :=
  let addrs : List Str := desired.map ipString
  let toDeletePairs := existing.filter fun p => decide (p.1 ∉ addrs)
  let toDelete := dedupNats (toDeletePairs.map Prod.snd)
  let toDeleteAddrs := toDeletePairs.map Prod.fst
  let toCreate := desired.filter fun a => ¬mapHasKey existing (ipString a)
  (toDelete, toCreate, toDeleteAddrs)

/-- One provider call issued by UpdateDNS. -/
inductive DNSOp where
  | create (rtype : Str) (rname : Str) (rdata : Str) (ttl : Nat)
  | remove (rid : Nat)
deriving DecidableEq

/-- Errors returned by UpdateDNS, wrapping the underlying cause. -/
inductive DNSErr where
  | getFail (e : FetchErr)
  | createFail (rtype : Str) (rdata : Str) (e : Str)
  | deleteFail (rid : Nat) (e : Str)
deriving DecidableEq

/-- Create loop of UpdateDNS: classify each address as A or AAAA by its
4-byte form, issue the create, and stop at the first failure.  The
provider's behaviour is an oracle from the record data to an optional
error.  Returns the successfully applied operations and the error. -/
def runCreates (rname : Str) (ttl : Nat) (oracle : Str → Option Str) :
    List IP → List DNSOp × Option DNSErr
  | [] => ([], none)
  | ip :: rest =>
    let kind := if ipTo4 ip = [] then strAAAA else strA
    match oracle (ipString ip) with
    | some e => ([], some (.createFail kind (ipString ip) e))
    | none =>
      let r := runCreates rname ttl oracle rest
      (.create kind rname (ipString ip) ttl :: r.1, r.2)

/-- Delete loop of UpdateDNS: issue each delete and stop at the first
failure. -/
def runDeletes (oracle : Nat → Option Str) : List Nat → List DNSOp × Option DNSErr
  | [] => ([], none)
  | i :: rest =>
    match oracle i with
    | some e => ([], some (.deleteFail i e))
    | none =>
      let r := runDeletes oracle rest
      (.remove i :: r.1, r.2)

/-- UpdateDNS from pkg/dns: nothing for an empty record name; otherwise
fetch, diff, create, then delete, stopping at the first failure.  Returns
the applied provider operations and the returned error. -/
def updateDNS (pages : List (List DNSRecord × Bool)) (createOracle : Str → Option Str)
    (deleteOracle : Nat → Option Str) (ttl : Nat) (record : Str) (addresses : List IP) :
    List DNSOp × Option DNSErr :=
  if record = [] then ([], none)
  else
    match getRecords pages record with
    | .error e => ([], some (.getFail e))
    | .ok existing =>
      let d := diffDNS addresses existing
      let c := runCreates record ttl createOracle d.2.1
      match c.2 with
      | some e => (c.1, some e)
      | none =>
        let del := runDeletes deleteOracle d.1
        (c.1 ++ del.1, del.2)

/-! ## Well-formedness -/

/-- The shapes net.IP values take in this program: nil, or 16 bytes (all
of Go's ParseIP results are nil or 16 bytes). -/
def wfIP (a : IP) : Prop := a = [] ∨ (a.length = 16 ∧ ∀ b ∈ a, b < 256)

instance (a : IP) : Decidable (wfIP a) := by
  unfold wfIP; infer_instance

/-- All addresses of a Node are well-formed. -/
def nodeWF (n : Node) : Prop :=
  (∀ a ∈ n.internal, wfIP a) ∧ (∀ a ∈ n.external, wfIP a)

instance (n : Node) : Decidable (nodeWF n) := by
  unfold nodeWF; infer_instance

/-! # Theorems -/

/-! ## Digit strings -/

theorem ubtoa_facts : ∀ v < 256, decVal (ubtoa v) = v ∧ ubtoa v ≠ [] ∧
    ∀ d ∈ ubtoa v, 48 ≤ d ∧ d ≤ 57 := by decide

theorem ubtoa_inj {a b : Nat} (ha : a < 256) (hb : b < 256) (h : ubtoa a = ubtoa b) :
    a = b := by
  have h1 := (ubtoa_facts a ha).1
  have h2 := (ubtoa_facts b hb).1
  rw [← h1, ← h2, h]

theorem hexValD_hexDigit : ∀ n < 16, hexValD (hexDigit n) = n := by decide

theorem isHexCode_hexDigit : ∀ n < 16, isHexCode (hexDigit n) := by decide

theorem appendHexGo_spec (i : Nat) (h : i < 65536) :
    hexVal (appendHexGo i) = i ∧ appendHexGo i ≠ [] ∧ ∀ d ∈ appendHexGo i, isHexCode d := by
  have e : (List.range 8).reverse = [7, 6, 5, 4, 3, 2, 1, 0] := by decide
  rcases Nat.eq_zero_or_pos i with h0 | h0
  · subst h0; refine ⟨by decide, by decide, by decide⟩
  have p7 : (16 : Nat) ^ 7 = 268435456 := by norm_num
  have p6 : (16 : Nat) ^ 6 = 16777216 := by norm_num
  have p5 : (16 : Nat) ^ 5 = 1048576 := by norm_num
  have p4 : (16 : Nat) ^ 4 = 65536 := by norm_num
  have p3 : (16 : Nat) ^ 3 = 4096 := by norm_num
  have p2 : (16 : Nat) ^ 2 = 256 := by norm_num
  have p1 : (16 : Nat) ^ 1 = 16 := by norm_num
  have p0 : (16 : Nat) ^ 0 = 1 := by norm_num
  have d7 : i / (16 : Nat) ^ 7 = 0 := by rw [p7]; exact Nat.div_eq_of_lt (by omega)
  have d6 : i / (16 : Nat) ^ 6 = 0 := by rw [p6]; exact Nat.div_eq_of_lt (by omega)
  have d5 : i / (16 : Nat) ^ 5 = 0 := by rw [p5]; exact Nat.div_eq_of_lt (by omega)
  have d4 : i / (16 : Nat) ^ 4 = 0 := by rw [p4]; exact Nat.div_eq_of_lt (by omega)
  have hm : ∀ n : Nat, n % 16 < 16 := fun n => Nat.mod_lt n (by norm_num)
  have explicitForm : appendHexGo i =
      (if 0 < i / 4096 then [hexDigit (i / 4096 % 16)] else []) ++
      ((if 0 < i / 256 then [hexDigit (i / 256 % 16)] else []) ++
      ((if 0 < i / 16 then [hexDigit (i / 16 % 16)] else []) ++
      [hexDigit (i % 16)])) := by
    unfold appendHexGo
    rw [if_neg (by omega), e]
    simp only [List.filterMap_cons, d7, d6, d5, d4, p3, p2, p1, p0, Nat.div_one,
      lt_irrefl, if_neg, if_pos h0]
    by_cases c3 : 0 < i / 4096 <;> by_cases c2 : 0 < i / 256 <;> by_cases c1 : 0 < i / 16 <;>
      simp [c3, c2, c1]
  rcases Nat.lt_or_ge i 16 with r1 | r1
  · have c1 : i / 16 = 0 := Nat.div_eq_of_lt r1
    have c2 : i / 256 = 0 := Nat.div_eq_of_lt (by omega)
    have c3 : i / 4096 = 0 := Nat.div_eq_of_lt (by omega)
    rw [explicitForm]
    simp only [c1, c2, c3, lt_irrefl, if_neg, List.nil_append, if_false]
    have mi : i % 16 = i := Nat.mod_eq_of_lt r1
    refine ⟨?_, by simp, ?_⟩
    · simp [hexVal, mi, hexValD_hexDigit i r1]
    · intro d hd
      simp only [List.mem_singleton] at hd
      subst hd; exact isHexCode_hexDigit _ (hm i)
  rcases Nat.lt_or_ge i 256 with r2 | r2
  · have c1 : 0 < i / 16 := Nat.div_pos r1 (by norm_num)
    have c2 : i / 256 = 0 := Nat.div_eq_of_lt (by omega)
    have c3 : i / 4096 = 0 := Nat.div_eq_of_lt (by omega)
    rw [explicitForm]
    simp only [c1, c2, c3, lt_irrefl, if_neg, if_pos, List.nil_append, if_false]
    refine ⟨?_, by simp, ?_⟩
    · simp only [hexVal, List.cons_append, List.nil_append, List.singleton_append,
        List.foldl_cons, List.foldl_nil, Nat.zero_mul, Nat.zero_add,
        hexValD_hexDigit _ (hm (i / 16)), hexValD_hexDigit _ (hm i)]
      omega
    · intro d hd
      simp only [List.mem_append, List.mem_cons, List.mem_singleton, List.not_mem_nil,
        or_false] at hd
      rcases hd with hd | hd <;> (subst hd; exact isHexCode_hexDigit _ (hm _))
  rcases Nat.lt_or_ge i 4096 with r3 | r3
  · have c1 : 0 < i / 16 := Nat.div_pos (by omega) (by norm_num)
    have c2 : 0 < i / 256 := Nat.div_pos r2 (by norm_num)
    have c3 : i / 4096 = 0 := Nat.div_eq_of_lt (by omega)
    rw [explicitForm]
    simp only [c1, c2, c3, lt_irrefl, if_neg, if_pos, List.nil_append, if_false]
    refine ⟨?_, by simp, ?_⟩
    · simp only [hexVal, List.cons_append, List.nil_append, List.singleton_append,
        List.foldl_cons, List.foldl_nil, Nat.zero_mul, Nat.zero_add,
        hexValD_hexDigit _ (hm (i / 256)), hexValD_hexDigit _ (hm (i / 16)),
        hexValD_hexDigit _ (hm i)]
      omega
    · intro d hd
      simp only [List.mem_append, List.mem_cons, List.mem_singleton, List.not_mem_nil,
        or_false] at hd
      rcases hd with hd | hd | hd <;> (subst hd; exact isHexCode_hexDigit _ (hm _))
  · have c1 : 0 < i / 16 := Nat.div_pos (by omega) (by norm_num)
    have c2 : 0 < i / 256 := Nat.div_pos (by omega) (by norm_num)
    have c3 : 0 < i / 4096 := Nat.div_pos r3 (by norm_num)
    rw [explicitForm]
    simp only [c1, c2, c3, if_pos, List.nil_append]
    refine ⟨?_, by simp, ?_⟩
    · simp only [hexVal, List.cons_append, List.nil_append, List.singleton_append,
        List.foldl_cons, List.foldl_nil, Nat.zero_mul, Nat.zero_add,
        hexValD_hexDigit _ (hm (i / 4096)), hexValD_hexDigit _ (hm (i / 256)),
        hexValD_hexDigit _ (hm (i / 16)), hexValD_hexDigit _ (hm i)]
      omega
    · intro d hd
      simp only [List.mem_append, List.mem_cons, List.mem_singleton, List.not_mem_nil,
        or_false] at hd
      rcases hd with hd | hd | hd | hd <;> (subst hd; exact isHexCode_hexDigit _ (hm _))

theorem hexVal_appendHexGo {i : Nat} (h : i < 65536) : hexVal (appendHexGo i) = i :=
  (appendHexGo_spec i h).1

theorem appendHexGo_ne_nil {i : Nat} (h : i < 65536) : appendHexGo i ≠ [] :=
  (appendHexGo_spec i h).2.1

theorem appendHexGo_hexCodes {i : Nat} (h : i < 65536) : ∀ d ∈ appendHexGo i, isHexCode d :=
  (appendHexGo_spec i h).2.2

theorem isHexCode_props {d : Nat} (h : isHexCode d) : d ≠ 58 ∧ d ≠ 46 ∧ d ≠ 60 := by
  rcases h with ⟨h1, h2⟩ | ⟨h1, h2⟩ <;> omega

/-! ## The longest-zero-run search -/

theorem zeroRunLen_mask (gs : List Nat) : zeroRunLen gs = zeroRunLenB (maskZ gs) := by
  induction gs with
  | nil => rfl
  | cons g gs ih =>
    simp only [zeroRunLen, maskZ, List.map_cons, zeroRunLenB]
    by_cases hg : g = 0 <;> simp [hg, ih, maskZ]

theorem findZeroRun_mask (fuel : Nat) (gs : List Nat) (i : Nat) (best : Option (Nat × Nat)) :
    findZeroRun fuel gs i best = findZeroRunB fuel (maskZ gs) i best := by
  induction fuel generalizing gs i best with
  | zero =>
    rcases gs with _ | ⟨g, gs⟩ <;> simp [maskZ, findZeroRun, findZeroRunB]
  | succ fuel ih =>
    rcases gs with _ | ⟨g, gs⟩
    · simp [maskZ, findZeroRun, findZeroRunB]
    · show findZeroRun (fuel + 1) (g :: gs) i best =
        findZeroRunB (fuel + 1) (decide (g = 0) :: List.map (fun x => decide (x = 0)) gs) i best
      rw [findZeroRun.eq_def, findZeroRunB.eq_def]
      have hz : zeroRunLenB (decide (g = 0) :: List.map (fun x => decide (x = 0)) gs) =
          zeroRunLen (g :: gs) := by
        rw [zeroRunLen_mask (g :: gs)]; rfl
      simp only [hz]
      split
      · rw [← List.map_drop]
        exact ih (gs.drop (zeroRunLen (g :: gs))) _ _
      · exact ih gs _ _

theorem runSpecBCheck_all : ∀ b0 b1 b2 b3 b4 b5 b6 b7 : Bool,
    runSpecBCheck [b0, b1, b2, b3, b4, b5, b6, b7] = true := by decide

theorem list_bool_len8 (l : List Bool) (h : l.length = 8) :
    ∃ a b c d e f g h', l = [a, b, c, d, e, f, g, h'] := by
  rcases l with _ | ⟨a, _ | ⟨b, _ | ⟨c, _ | ⟨d, _ | ⟨e, _ | ⟨f, _ | ⟨g, _ | ⟨h', _ | ⟨i, t⟩⟩⟩⟩⟩⟩⟩⟩⟩ <;>
    simp_all

theorem longestZeroRun_spec (gs : List Nat) (h8 : gs.length = 8) (e0 e1 : Nat)
    (h : longestZeroRun gs = some (e0, e1)) :
    e0 < e1 ∧ e1 ≤ 8 ∧ 2 ≤ e1 - e0 ∧ ∀ k, e0 ≤ k → k < e1 → gs.get? k = some 0 := by
  unfold longestZeroRun at h
  rcases hf : findZeroRun gs.length gs 0 none with _ | p
  · rw [hf] at h; simp at h
  rw [hf] at h
  simp only [] at h
  by_cases hlen : p.2 - p.1 ≤ 1
  · rw [if_pos hlen] at h; simp at h
  rw [if_neg hlen] at h
  have hp : p = (e0, e1) := Option.some.inj h
  subst hp
  have hmask := findZeroRun_mask gs.length gs 0 none
  rw [hf, h8] at hmask
  have hblen : (maskZ gs).length = 8 := by simp [maskZ, h8]
  obtain ⟨a, b, c, d, e, f, g, h', hbs⟩ := list_bool_len8 (maskZ gs) hblen
  have hcheck := runSpecBCheck_all a b c d e f g h'
  rw [← hbs] at hcheck
  unfold runSpecBCheck at hcheck
  rw [hblen, ← hmask] at hcheck
  dsimp only at hcheck
  simp only at hlen
  rw [if_pos (by omega)] at hcheck
  simp only [Bool.and_eq_true, List.all_eq_true, decide_eq_true_eq, Bool.or_eq_true,
    Bool.not_eq_true', Bool.and_eq_false_iff, decide_eq_false_iff_not] at hcheck
  obtain ⟨⟨h1, h2⟩, h3⟩ := hcheck
  refine ⟨h1, h2, by omega, ?_⟩
  intro k hk1 hk2
  have hk8 : k < 8 := by omega
  have hk := h3 k (by simp [List.mem_range, hk8])
  rcases hk with hbad | hgood
  · rcases hbad with hb | hb <;> omega
  · have hmz : (maskZ gs).get? k = (gs.get? k).map fun x => decide (x = 0) := by
      simp [maskZ, List.get?_map]
    rw [hmz] at hgood
    rcases hgs : gs.get? k with _ | g0
    · rw [hgs] at hgood; simp at hgood
    · rw [hgs] at hgood; simp at hgood; simp [hgood]

theorem noDC_append_token (t l : List Nat) (ht : ∀ d ∈ t, d ≠ 58) (hl : noDC l) :
    noDC (t ++ l) := by
  induction t with
  | nil => simpa
  | cons c t' ih =>
    have hc : c ≠ 58 := ht c (by simp)
    have ih' := ih fun d hd => ht d (by simp [hd])
    rcases h' : t' ++ l with _ | ⟨x, xs⟩
    · show noDC (c :: (t' ++ l))
      rw [h']; simp [noDC]
    · show noDC (c :: (t' ++ l))
      rw [h']
      exact ⟨fun hp => hc hp.1, h' ▸ ih'⟩

theorem joinSep_cons_eq_append (t : List Nat) (ts : List (List Nat)) :
    ∃ z, joinSep 58 (t :: ts) = t ++ z := by
  rcases ts with _ | ⟨t2, ts'⟩
  · exact ⟨[], by simp [joinSep]⟩
  · exact ⟨58 :: joinSep 58 (t2 :: ts'), rfl⟩

theorem noDC_joinSep_append (ts : List (List Nat)) (X : List Nat)
    (hts : ∀ t ∈ ts, t ≠ [] ∧ ∀ d ∈ t, d ≠ 58) (hX : noDC X) :
    noDC (joinSep 58 ts ++ X) := by
  induction ts with
  | nil => simpa [joinSep]
  | cons t ts' ih =>
    rcases ts' with _ | ⟨t2, ts''⟩
    · exact noDC_append_token t X (hts t (by simp)).2 hX
    · show noDC ((t ++ 58 :: joinSep 58 (t2 :: ts'')) ++ X)
      rw [List.append_assoc, List.cons_append]
      apply noDC_append_token t _ (hts t (by simp)).2
      have ih' := ih fun u hu => hts u (by simp [List.mem_cons] at hu ⊢; tauto)
      obtain ⟨z, hz⟩ := joinSep_cons_eq_append t2 ts''
      obtain ⟨c, t2', hc⟩ : ∃ c t2', t2 = c :: t2' := by
        rcases hts t2 (by simp) with ⟨hne, _⟩
        rcases t2 with _ | ⟨c, t2'⟩
        · exact absurd rfl hne
        · exact ⟨c, t2', rfl⟩
      have hc58 : c ≠ 58 := (hts t2 (by simp)).2 c (by simp [hc])
      have hshape : joinSep 58 (t2 :: ts'') ++ X = c :: (t2' ++ z ++ X) := by
        rw [hz, hc]; simp
      rw [hshape]
      exact ⟨fun hp => hc58 hp.2, hshape ▸ ih'⟩

theorem noDC_findDoubleColon (s : List Nat) (h : noDC s) : findDoubleColon s = none := by
  induction s with
  | nil => rfl
  | cons c s' ih =>
    rcases s' with _ | ⟨d, rest⟩
    · rfl
    · obtain ⟨h1, h2⟩ := h
      show findDoubleColon (c :: d :: rest) = none
      rw [findDoubleColon]
      rw [if_neg h1, ih h2]
      rfl

theorem findDoubleColon_append (A B : List Nat) (h : noDC (A ++ [58])) :
    findDoubleColon (A ++ 58 :: 58 :: B) = some (A, B) := by
  induction A with
  | nil => simp [findDoubleColon]
  | cons c A' ih =>
    rcases A' with _ | ⟨d, A''⟩
    · obtain ⟨h1, _⟩ := h
      have hc : c ≠ 58 := fun hc => h1 ⟨hc, rfl⟩
      show findDoubleColon (c :: 58 :: 58 :: B) = some ([c], B)
      rw [findDoubleColon, if_neg (fun hp => hc hp.1)]
      rw [show findDoubleColon (58 :: 58 :: B) = some ([], B) by rw [findDoubleColon]; simp]
      rfl
    · obtain ⟨h1, h2⟩ := h
      show findDoubleColon (c :: ((d :: A'') ++ 58 :: 58 :: B)) = some (c :: d :: A'', B)
      rw [findDoubleColon.eq_def]
      simp only [List.cons_append]
      simp only [List.cons_append] at ih
      rw [if_neg h1, ih h2]
      rfl

theorem splitOnColon_token (t : List Nat) (ht : ∀ d ∈ t, d ≠ 58) :
    splitOnColon t = [t] := by
  induction t with
  | nil => rfl
  | cons c t' ih =>
    have hc : c ≠ 58 := ht c (by simp)
    rw [splitOnColon, if_neg hc, ih fun d hd => ht d (by simp [hd])]

theorem splitOnColon_append (t rest : List Nat) (ht : ∀ d ∈ t, d ≠ 58) :
    splitOnColon (t ++ 58 :: rest) = t :: splitOnColon rest := by
  induction t with
  | nil => simp [splitOnColon]
  | cons c t' ih =>
    have hc : c ≠ 58 := ht c (by simp)
    show splitOnColon (c :: (t' ++ 58 :: rest)) = (c :: t') :: splitOnColon rest
    rw [splitOnColon, if_neg hc, ih fun d hd => ht d (by simp [hd])]

theorem splitOnColon_joinSep (ts : List (List Nat)) (hne : ts ≠ [])
    (hts : ∀ t ∈ ts, ∀ d ∈ t, d ≠ 58) :
    splitOnColon (joinSep 58 ts) = ts := by
  induction ts with
  | nil => exact absurd rfl hne
  | cons t ts' ih =>
    rcases ts' with _ | ⟨t2, ts''⟩
    · exact splitOnColon_token t (hts t (by simp))
    · show splitOnColon (t ++ 58 :: joinSep 58 (t2 :: ts'')) = t :: t2 :: ts''
      rw [splitOnColon_append t _ (hts t (by simp))]
      rw [ih (by simp) fun u hu d hd => hts u (by simp [List.mem_cons] at hu ⊢; tauto) d hd]

theorem joinSep_cons_ne_nil (t : List Nat) (ts : List (List Nat)) (ht : t ≠ []) :
    joinSep 58 (t :: ts) ≠ [] := by
  obtain ⟨z, hz⟩ := joinSep_cons_eq_append t ts
  rw [hz]
  simp [ht]

theorem mem_58_joinSep (ts : List (List Nat)) (h : 2 ≤ ts.length) :
    58 ∈ joinSep 58 ts := by
  rcases ts with _ | ⟨t, _ | ⟨t2, ts''⟩⟩
  · simp at h
  · simp at h
  · show 58 ∈ t ++ 58 :: joinSep 58 (t2 :: ts'')
    simp

theorem mem_joinSep (d : Nat) (ts : List (List Nat)) (h : d ∈ joinSep 58 ts) :
    d = 58 ∨ ∃ t ∈ ts, d ∈ t := by
  induction ts with
  | nil => simp [joinSep] at h
  | cons t ts' ih =>
    rcases ts' with _ | ⟨t2, ts''⟩
    · simp [joinSep] at h
      exact Or.inr ⟨t, by simp, h⟩
    · rcases List.mem_append.1 h with h1 | h1
      · exact Or.inr ⟨t, by simp, h1⟩
      · rcases List.mem_cons.1 h1 with h2 | h2
        · exact Or.inl h2
        · rcases ih h2 with h3 | ⟨u, hu, hd⟩
          · exact Or.inl h3
          · exact Or.inr ⟨u, by simp [List.mem_cons] at hu ⊢; tauto, hd⟩

theorem toGroups_length (p : List Nat) : (toGroups p).length = p.length / 2 := by
  induction p using toGroups.induct with
  | case1 b0 b1 rest ih => simp [toGroups, ih]; omega
  | case2 p h => rcases p with _ | ⟨b, _ | ⟨c, t⟩⟩ <;> simp_all [toGroups]

theorem toGroups_lt (p : List Nat) (hb : ∀ b ∈ p, b < 256) :
    ∀ g ∈ toGroups p, g < 65536 := by
  induction p using toGroups.induct with
  | case1 b0 b1 rest ih =>
    intro g hg
    rw [toGroups] at hg
    rcases List.mem_cons.1 hg with h | h
    · have := hb b0 (by simp); have := hb b1 (by simp); omega
    · exact ih (fun b hbm => hb b (by simp [hbm])) g h
  | case2 p h => rcases p with _ | ⟨b, _ | ⟨c, t⟩⟩ <;> simp_all [toGroups]

theorem seg_replicate (gs : List Nat) (e0 e1 : Nat) (he : e0 ≤ e1) (hlen : e1 ≤ gs.length)
    (hz : ∀ k, e0 ≤ k → k < e1 → gs.get? k = some 0) :
    gs = gs.take e0 ++ List.replicate (e1 - e0) 0 ++ gs.drop e1 := by
  conv_lhs => rw [← List.take_append_drop e0 gs]
  rw [List.append_assoc]
  congr 1
  have hdd : (gs.drop e0).drop (e1 - e0) = gs.drop e1 := by
    rw [List.drop_drop]
    congr 1
    omega
  conv_lhs => rw [← List.take_append_drop (e1 - e0) (gs.drop e0)]
  rw [hdd]
  congr 1
  rw [List.eq_replicate_iff]
  constructor
  · rw [List.length_take, List.length_drop]
    omega
  · intro b hb
    rw [List.mem_iff_get?] at hb
    obtain ⟨n, hn⟩ := hb
    have hnlt : n < e1 - e0 := by
      by_contra hge
      rw [List.get?_eq_none.2 (by rw [List.length_take, List.length_drop]; omega)] at hn
      exact Option.noConfusion hn
    rw [List.get?_take hnlt] at hn
    have : (gs.drop e0).get? n = gs.get? (e0 + n) := by
      simpa using List.getElem?_drop gs e0 n
    rw [this, hz (e0 + n) (by omega) (by omega)] at hn
    exact (Option.some.inj hn).symm

theorem map_hexVal_appendHexGo (gs : List Nat) (h : ∀ g ∈ gs, g < 65536) :
    (gs.map appendHexGo).map hexVal = gs := by
  rw [List.map_map]
  have : ∀ g ∈ gs, (hexVal ∘ appendHexGo) g = id g := fun g hg =>
    hexVal_appendHexGo (h g hg)
  rw [List.map_congr_left this, List.map_id]

theorem hexTokens_ok (gs : List Nat) (h : ∀ g ∈ gs, g < 65536) :
    ∀ t ∈ gs.map appendHexGo, t ≠ [] ∧ ∀ d ∈ t, d ≠ 58 := by
  intro t ht
  obtain ⟨g, hg, rfl⟩ := List.mem_map.1 ht
  refine ⟨appendHexGo_ne_nil (h g hg), fun d hd => ?_⟩
  exact (isHexCode_props (appendHexGo_hexCodes (h g hg) d hd)).1

theorem decodeV6_ipStringV6 (p : List Nat) (h16 : p.length = 16)
    (hb : ∀ b ∈ p, b < 256) : decodeV6 (ipStringV6 p) = toGroups p := by
  have hg8 : (toGroups p).length = 8 := by rw [toGroups_length, h16]
  have hglt : ∀ g ∈ toGroups p, g < 65536 := toGroups_lt p hb
  have htok := hexTokens_ok (toGroups p) hglt
  unfold ipStringV6
  rcases hrun : longestZeroRun (toGroups p) with _ | ⟨e0, e1⟩
  · dsimp only
    rw [hrun]
    dsimp only
    unfold decodeV6
    rw [noDC_findDoubleColon _ (by
      have := noDC_joinSep_append ((toGroups p).map appendHexGo) [] htok (by simp [noDC])
      simpa using this)]
    rw [splitOnColon_joinSep _ (by
        intro hcon
        have := congrArg List.length hcon
        simp [hg8] at this) fun t ht => (htok t ht).2]
    exact map_hexVal_appendHexGo _ hglt
  · obtain ⟨hlt, hle, h2le, hzero⟩ := longestZeroRun_spec _ hg8 e0 e1 hrun
    dsimp only
    rw [hrun]
    dsimp only
    unfold decodeV6
    have htokTake : ∀ t ∈ ((toGroups p).take e0).map appendHexGo, t ≠ [] ∧ ∀ d ∈ t, d ≠ 58 :=
      fun t ht => htok t (by
        obtain ⟨g, hg, rfl⟩ := List.mem_map.1 ht
        exact List.mem_map.2 ⟨g, List.mem_of_mem_take hg, rfl⟩)
    have htokDrop : ∀ t ∈ ((toGroups p).drop e1).map appendHexGo, t ≠ [] ∧ ∀ d ∈ t, d ≠ 58 :=
      fun t ht => htok t (by
        obtain ⟨g, hg, rfl⟩ := List.mem_map.1 ht
        exact List.mem_map.2 ⟨g, List.mem_of_mem_drop hg, rfl⟩)
    have hfdc : findDoubleColon
        (joinSep 58 (((toGroups p).take e0).map appendHexGo) ++ 58 :: 58 ::
          joinSep 58 (((toGroups p).drop e1).map appendHexGo)) =
        some (joinSep 58 (((toGroups p).take e0).map appendHexGo),
          joinSep 58 (((toGroups p).drop e1).map appendHexGo)) := by
      apply findDoubleColon_append
      exact noDC_joinSep_append _ [58] htokTake (by simp [noDC])
    rw [hfdc]
    dsimp only
    have hleft : (if joinSep 58 (((toGroups p).take e0).map appendHexGo) = [] then []
        else (splitOnColon (joinSep 58 (((toGroups p).take e0).map appendHexGo))).map hexVal) =
        (toGroups p).take e0 := by
      rcases Nat.eq_zero_or_pos e0 with he0 | he0
      · subst he0
        simp [joinSep]
      · have htne : ((toGroups p).take e0).map appendHexGo ≠ [] := by
          intro hcon
          have hlc := congrArg List.length hcon
          simp [List.length_take, hg8] at hlc
          omega
        obtain ⟨t, ts, hts⟩ := List.exists_cons_of_ne_nil htne
        rw [hts]
        rw [if_neg (joinSep_cons_ne_nil t ts ((htokTake t (by rw [hts]; simp)).1))]
        rw [← hts]
        rw [splitOnColon_joinSep _ (by simp [hts]) fun t2 ht2 => (htokTake t2 ht2).2]
        exact map_hexVal_appendHexGo _ fun g hg => hglt g (List.mem_of_mem_take hg)
    have hright : (if joinSep 58 (((toGroups p).drop e1).map appendHexGo) = [] then []
        else (splitOnColon (joinSep 58 (((toGroups p).drop e1).map appendHexGo))).map hexVal) =
        (toGroups p).drop e1 := by
      rcases Nat.lt_or_ge e1 8 with he1 | he1
      · have htne : ((toGroups p).drop e1).map appendHexGo ≠ [] := by
          intro hcon
          have hlc := congrArg List.length hcon
          simp [List.length_drop, hg8] at hlc
          omega
        obtain ⟨t, ts, hts⟩ := List.exists_cons_of_ne_nil htne
        rw [hts]
        rw [if_neg (joinSep_cons_ne_nil t ts ((htokDrop t (by rw [hts]; simp)).1))]
        rw [← hts]
        rw [splitOnColon_joinSep _ (by simp [hts]) fun t2 ht2 => (htokDrop t2 ht2).2]
        exact map_hexVal_appendHexGo _ fun g hg => hglt g (List.mem_of_mem_drop hg)
      · have he18 : e1 = 8 := by omega
        have hdn : (toGroups p).drop e1 = [] := by
          apply List.drop_eq_nil_of_le
          omega
        rw [hdn]
        simp [joinSep]
    rw [hleft, hright]
    rw [List.length_take, List.length_drop, hg8]
    have hmin : min e0 8 = e0 := by omega
    rw [hmin]
    have harith : 8 - e0 - (8 - e1) = e1 - e0 := by omega
    rw [harith]
    exact (seg_replicate (toGroups p) e0 e1 (by omega) (by omega) hzero).symm

theorem findDot_append (T rest : List Nat) (hT : ∀ d ∈ T, d ≠ 46) :
    findDot (T ++ 46 :: rest) = some (T, rest) := by
  induction T with
  | nil => simp [findDot]
  | cons c T' ih =>
    have hc : c ≠ 46 := hT c (by simp)
    show findDot (c :: (T' ++ 46 :: rest)) = some (c :: T', rest)
    rw [findDot, if_neg hc, ih fun d hd => hT d (by simp [hd])]
    rfl

theorem quad_inj {a b c d a' b' c' d' : Nat}
    (ha : a < 256) (hb : b < 256) (hc : c < 256) (hd : d < 256)
    (ha' : a' < 256) (hb' : b' < 256) (hc' : c' < 256) (hd' : d' < 256)
    (h : ubtoa a ++ 46 :: (ubtoa b ++ 46 :: (ubtoa c ++ 46 :: ubtoa d)) =
      ubtoa a' ++ 46 :: (ubtoa b' ++ 46 :: (ubtoa c' ++ 46 :: ubtoa d'))) :
    a = a' ∧ b = b' ∧ c = c' ∧ d = d' := by
  have nodot : ∀ x, x < 256 → ∀ e ∈ ubtoa x, e ≠ 46 := fun x hx e he => by
    have := (ubtoa_facts x hx).2.2 e he
    omega
  have h1 := findDot_append (ubtoa a) (ubtoa b ++ 46 :: (ubtoa c ++ 46 :: ubtoa d)) (nodot a ha)
  have h1' := findDot_append (ubtoa a')
    (ubtoa b' ++ 46 :: (ubtoa c' ++ 46 :: ubtoa d')) (nodot a' ha')
  rw [h, h1'] at h1
  have hp1 := Option.some.inj h1
  have hA := ubtoa_inj ha' ha (congrArg Prod.fst hp1)
  have e2 : ubtoa b' ++ 46 :: (ubtoa c' ++ 46 :: ubtoa d') =
      ubtoa b ++ 46 :: (ubtoa c ++ 46 :: ubtoa d) := congrArg Prod.snd hp1
  have h2 := findDot_append (ubtoa b') (ubtoa c' ++ 46 :: ubtoa d') (nodot b' hb')
  have h2' := findDot_append (ubtoa b) (ubtoa c ++ 46 :: ubtoa d) (nodot b hb)
  rw [e2, h2'] at h2
  have hp2 := Option.some.inj h2
  have hB := ubtoa_inj hb hb' (congrArg Prod.fst hp2)
  have f2 : ubtoa c ++ 46 :: ubtoa d = ubtoa c' ++ 46 :: ubtoa d' := congrArg Prod.snd hp2
  have h3 := findDot_append (ubtoa c) (ubtoa d) (nodot c hc)
  have h3' := findDot_append (ubtoa c') (ubtoa d') (nodot c' hc')
  rw [f2, h3'] at h3
  have hp3 := Option.some.inj h3
  have hC := ubtoa_inj hc' hc (congrArg Prod.fst hp3)
  have hD := ubtoa_inj hd' hd (congrArg Prod.snd hp3)
  exact ⟨hA.symm, hB, hC.symm, hD.symm⟩

theorem mem_quadStr {x a b c d : Nat} (ha : a < 256) (hb : b < 256) (hc : c < 256)
    (hd : d < 256)
    (hx : x ∈ ubtoa a ++ 46 :: (ubtoa b ++ 46 :: (ubtoa c ++ 46 :: ubtoa d))) :
    (48 ≤ x ∧ x ≤ 57) ∨ x = 46 := by
  have f : ∀ y, y < 256 → x ∈ ubtoa y → (48 ≤ x ∧ x ≤ 57) ∨ x = 46 := fun y hy hm =>
    Or.inl ((ubtoa_facts y hy).2.2 x hm)
  simp only [List.mem_append, List.mem_cons] at hx
  rcases hx with h | h | h | h | h | h | h
  · exact f a ha h
  · exact Or.inr h
  · exact f b hb h
  · exact Or.inr h
  · exact f c hc h
  · exact Or.inr h
  · exact f d hd h

theorem mem_ipStringV6 {x : Nat} (p : List Nat) (h16 : p.length = 16)
    (hb : ∀ b ∈ p, b < 256) (hx : x ∈ ipStringV6 p) : x = 58 ∨ isHexCode x := by
  have hglt : ∀ g ∈ toGroups p, g < 65536 := toGroups_lt p hb
  have fromTok : ∀ gs2 : List Nat, (∀ g ∈ gs2, g ∈ toGroups p) →
      x ∈ joinSep 58 (gs2.map appendHexGo) → x = 58 ∨ isHexCode x := by
    intro gs2 hsub hm
    rcases mem_joinSep x _ hm with h | ⟨t, ht, hxt⟩
    · exact Or.inl h
    · obtain ⟨g, hg, rfl⟩ := List.mem_map.1 ht
      exact Or.inr (appendHexGo_hexCodes (hglt g (hsub g hg)) x hxt)
  unfold ipStringV6 at hx
  dsimp only at hx
  rcases hrun : longestZeroRun (toGroups p) with _ | e <;> rw [hrun] at hx
  · exact fromTok (toGroups p) (fun g hg => hg) hx
  · simp only [List.mem_append, List.mem_cons] at hx
    rcases hx with h | h | h
    · exact fromTok _ (fun g hg => List.mem_of_mem_take hg) h
    · exact Or.inl h
    · rcases h with h | h
      · exact Or.inl h
      · exact fromTok _ (fun g hg => List.mem_of_mem_drop hg) h

theorem mem58_ipStringV6 (p : List Nat) (h16 : p.length = 16) :
    58 ∈ ipStringV6 p := by
  have hg8 : (toGroups p).length = 8 := by rw [toGroups_length, h16]
  unfold ipStringV6
  dsimp only
  rcases hrun : longestZeroRun (toGroups p) with _ | e
  · exact mem_58_joinSep _ (by simp [hg8])
  · simp

theorem ipString_nil : ipString [] = [60, 110, 105, 108, 62] := rfl

theorem ipString_eq_quad (p : List Nat) (h16 : p.length = 16) (a b c d : Nat)
    (h4 : ipTo4 p = [a, b, c, d]) :
    ipString p = ubtoa a ++ 46 :: (ubtoa b ++ 46 :: (ubtoa c ++ 46 :: ubtoa d)) := by
  unfold ipString
  rw [if_neg (by intro hcon; rw [hcon] at h16; simp at h16), h4]

theorem ipString_eq_v6 (p : List Nat) (h16 : p.length = 16) (h4 : ipTo4 p = []) :
    ipString p = ipStringV6 p := by
  unfold ipString
  rw [if_neg (by intro hcon; rw [hcon] at h16; simp at h16), h4]
  rw [if_pos h16]

theorem ipTo4_of_len16 (p : List Nat) (h16 : p.length = 16) :
    (p.take 12 = v4InV6Header ∧ ipTo4 p = p.drop 12) ∨
      (p.take 12 ≠ v4InV6Header ∧ ipTo4 p = []) := by
  unfold ipTo4
  rw [if_neg (by omega)]
  by_cases hh : p.take 12 = v4InV6Header
  · exact Or.inl ⟨hh, by rw [if_pos ⟨h16, hh⟩]⟩
  · exact Or.inr ⟨hh, by rw [if_neg (by tauto)]⟩

theorem drop12_quad (p : List Nat) (h16 : p.length = 16) :
    ∃ a b c d, p.drop 12 = [a, b, c, d] := by
  have hlen : (p.drop 12).length = 4 := by simp [h16]
  rcases hq : p.drop 12 with _ | ⟨a, _ | ⟨b, _ | ⟨c, _ | ⟨d, _ | ⟨e, t⟩⟩⟩⟩⟩ <;>
    rw [hq] at hlen <;> simp_all

theorem toGroups_inj : ∀ p q : List Nat, p.length = q.length → p.length % 2 = 0 →
    (∀ b ∈ p, b < 256) → (∀ b ∈ q, b < 256) → toGroups p = toGroups q → p = q
  | [], [], _, _, _, _, _ => rfl
  | [], _ :: _, hl, _, _, _, _ => by simp at hl
  | _ :: _, [], hl, _, _, _, _ => by simp at hl
  | [_], _, _, he, _, _, _ => by simp at he
  | _ :: _ :: _, [_], hl, he, _, _, _ => by simp at hl
  | b0 :: b1 :: p', c0 :: c1 :: q', hl, he, hbp, hbq, hg => by
    simp only [toGroups, List.cons.injEq] at hg
    obtain ⟨hg1, hg2⟩ := hg
    have hb0 : b0 < 256 := hbp b0 (by simp)
    have hb1 : b1 < 256 := hbp b1 (by simp)
    have hc0 : c0 < 256 := hbq c0 (by simp)
    have hc1 : c1 < 256 := hbq c1 (by simp)
    have e0 : b0 = c0 := by omega
    have e1 : b1 = c1 := by omega
    have ih := toGroups_inj p' q' (by simp at hl; omega) (by simp at he; omega)
      (fun b hb => hbp b (by simp [hb])) (fun b hb => hbq b (by simp [hb])) hg2
    rw [e0, e1, ih]

theorem ipString_inj_16 (p q : List Nat) (hp : p.length = 16) (hq : q.length = 16)
    (hpb : ∀ b ∈ p, b < 256) (hqb : ∀ b ∈ q, b < 256)
    (h : ipString p = ipString q) : p = q := by
  have memp : ∀ x ∈ p.drop 12, x < 256 := fun x hx => hpb x (List.mem_of_mem_drop hx)
  have memq : ∀ x ∈ q.drop 12, x < 256 := fun x hx => hqb x (List.mem_of_mem_drop hx)
  rcases ipTo4_of_len16 p hp with ⟨php, hp4⟩ | ⟨php, hp4⟩ <;>
    rcases ipTo4_of_len16 q hq with ⟨phq, hq4⟩ | ⟨phq, hq4⟩
  · -- both v4-mapped
    obtain ⟨a, b, c, d, hpd⟩ := drop12_quad p hp
    obtain ⟨a', b', c', d', hqd⟩ := drop12_quad q hq
    have ha : a < 256 := memp a (by rw [hpd]; simp)
    have hb : b < 256 := memp b (by rw [hpd]; simp)
    have hc : c < 256 := memp c (by rw [hpd]; simp)
    have hd : d < 256 := memp d (by rw [hpd]; simp)
    have ha' : a' < 256 := memq a' (by rw [hqd]; simp)
    have hb' : b' < 256 := memq b' (by rw [hqd]; simp)
    have hc' : c' < 256 := memq c' (by rw [hqd]; simp)
    have hd' : d' < 256 := memq d' (by rw [hqd]; simp)
    rw [ipString_eq_quad p hp a b c d (by rw [hp4, hpd]),
      ipString_eq_quad q hq a' b' c' d' (by rw [hq4, hqd])] at h
    obtain ⟨e1, e2, e3, e4⟩ := quad_inj ha hb hc hd ha' hb' hc' hd' h
    subst e1; subst e2; subst e3; subst e4
    calc p = p.take 12 ++ p.drop 12 := (List.take_append_drop 12 p).symm
    _ = q.take 12 ++ q.drop 12 := by rw [php, phq, hpd, hqd]
    _ = q := List.take_append_drop 12 q
  · -- p v4-mapped, q not: the v6 string contains a colon, the quad does not
    obtain ⟨a, b, c, d, hpd⟩ := drop12_quad p hp
    rw [ipString_eq_quad p hp a b c d (by rw [hp4, hpd]),
      ipString_eq_v6 q hq hq4] at h
    have h58 : (58 : Nat) ∈ ipStringV6 q := mem58_ipStringV6 q hq
    rw [← h] at h58
    have := mem_quadStr (memp a (by rw [hpd]; simp)) (memp b (by rw [hpd]; simp))
      (memp c (by rw [hpd]; simp)) (memp d (by rw [hpd]; simp)) h58
    omega
  · -- q v4-mapped, p not
    obtain ⟨a, b, c, d, hqd⟩ := drop12_quad q hq
    rw [ipString_eq_quad q hq a b c d (by rw [hq4, hqd]),
      ipString_eq_v6 p hp hp4] at h
    have h58 : (58 : Nat) ∈ ipStringV6 p := mem58_ipStringV6 p hp
    rw [h] at h58
    have := mem_quadStr (memq a (by rw [hqd]; simp)) (memq b (by rw [hqd]; simp))
      (memq c (by rw [hqd]; simp)) (memq d (by rw [hqd]; simp)) h58
    omega
  · -- both plain v6
    rw [ipString_eq_v6 p hp hp4, ipString_eq_v6 q hq hq4] at h
    have hdec := decodeV6_ipStringV6 p hp hpb
    rw [h, decodeV6_ipStringV6 q hq hqb] at hdec
    have heven : p.length % 2 = 0 := by omega
    exact toGroups_inj p q (by omega) heven hpb hqb hdec.symm

theorem ipTo16_wf (a : IP) (ha : wfIP a) : ipTo16 a = a := by
  rcases ha with h | ⟨h, _⟩
  · subst h; rfl
  · unfold ipTo16
    rw [if_neg (by omega), if_pos h]

theorem not_mem60_ipString16 (p : List Nat) (h16 : p.length = 16)
    (hb : ∀ b ∈ p, b < 256) : (60 : Nat) ∉ ipString p := by
  intro hmem
  rcases ipTo4_of_len16 p h16 with ⟨php, hp4⟩ | ⟨php, hp4⟩
  · obtain ⟨a, b, c, d, hpd⟩ := drop12_quad p h16
    have memp : ∀ x ∈ p.drop 12, x < 256 := fun x hx => hb x (List.mem_of_mem_drop hx)
    rw [ipString_eq_quad p h16 a b c d (by rw [hp4, hpd])] at hmem
    have := mem_quadStr (memp a (by rw [hpd]; simp)) (memp b (by rw [hpd]; simp))
      (memp c (by rw [hpd]; simp)) (memp d (by rw [hpd]; simp)) hmem
    omega
  · rw [ipString_eq_v6 p h16 hp4] at hmem
    rcases mem_ipStringV6 p h16 hb hmem with h | h
    · omega
    · have := isHexCode_props h
      omega

theorem ipKey_inj_wf (a b : IP) (ha : wfIP a) (hb : wfIP b) (h : ipKey a = ipKey b) :
    a = b := by
  unfold ipKey at h
  rw [ipTo16_wf a ha, ipTo16_wf b hb] at h
  rcases ha with ha0 | ⟨ha16, hab⟩ <;> rcases hb with hb0 | ⟨hb16, hbb⟩
  · rw [ha0, hb0]
  · exfalso
    subst ha0
    rw [ipString_nil] at h
    exact not_mem60_ipString16 b hb16 hbb (by rw [← h]; simp)
  · exfalso
    subst hb0
    rw [ipString_nil] at h
    exact not_mem60_ipString16 a ha16 hab (by rw [h]; simp)
  · exact ipString_inj_16 a b ha16 hb16 hab hbb h

theorem mapKeys_map_replace {α : Type} (m : List (Str × α)) (k : Str) (v : α) :
    mapKeys (m.map fun p => if p.1 = k then (k, v) else p) = mapKeys m := by
  unfold mapKeys
  rw [List.map_map]
  apply List.map_congr_left
  intro p _
  by_cases hp : p.1 = k <;> simp [hp]

theorem mapKeys_insert {α : Type} (m : List (Str × α)) (k : Str) (v : α) :
    mapKeys (mapInsert m k v) =
      if mapHasKey m k then mapKeys m else mapKeys m ++ [k] := by
  unfold mapInsert
  by_cases h : mapHasKey m k
  · rw [if_pos h, if_pos h, mapKeys_map_replace]
  · rw [if_neg h, if_neg h]
    simp [mapKeys]

theorem mapHasKey_iff {α : Type} (m : List (Str × α)) (k : Str) :
    mapHasKey m k = true ↔ k ∈ mapKeys m := by
  simp [mapHasKey, mapKeys, List.any_eq_true]

theorem mem_mapKeys_insert {α : Type} (m : List (Str × α)) (k k' : Str) (v : α) :
    k' ∈ mapKeys (mapInsert m k v) ↔ k' ∈ mapKeys m ∨ k' = k := by
  rw [mapKeys_insert]
  by_cases h : mapHasKey m k
  · rw [if_pos h]
    constructor
    · exact Or.inl
    · rintro (hm | rfl)
      · exact hm
      · exact (mapHasKey_iff m k').1 h
  · rw [if_neg h]
    simp

theorem nodup_mapKeys_insert {α : Type} (m : List (Str × α)) (k : Str) (v : α)
    (h : (mapKeys m).Nodup) : (mapKeys (mapInsert m k v)).Nodup := by
  rw [mapKeys_insert]
  by_cases hk : mapHasKey m k
  · rw [if_pos hk]; exact h
  · rw [if_neg hk]
    rw [List.nodup_append]
    refine ⟨h, List.nodup_singleton k, ?_⟩
    intro x hx
    simp only [List.mem_singleton]
    intro he
    subst he
    exact hk ((mapHasKey_iff m x).2 hx)

theorem mapLookup_nil {α : Type} (k : Str) : mapLookup ([] : List (Str × α)) k = none := rfl

theorem mapLookup_cons {α : Type} (p : Str × α) (m : List (Str × α)) (k : Str) :
    mapLookup (p :: m) k = if p.1 = k then some p.2 else mapLookup m k := by
  unfold mapLookup
  by_cases h : p.1 = k
  · rw [List.find?_cons_of_pos _ (by simp [h]), if_pos h]
  · rw [List.find?_cons_of_neg _ (by simp [h]), if_neg h]

theorem mapLookup_eq_none_of_not_hasKey {α : Type} (m : List (Str × α)) (k : Str)
    (h : mapHasKey m k = false) : mapLookup m k = none := by
  induction m with
  | nil => rfl
  | cons p m' ih =>
    rw [mapLookup_cons]
    simp [mapHasKey] at h
    rw [if_neg h.1]
    exact ih (by simp [mapHasKey]; exact h.2)

theorem mapLookup_map_replace_ne {α : Type} (m : List (Str × α)) (k k' : Str) (v : α)
    (hne : k' ≠ k) :
    mapLookup (m.map fun p => if p.1 = k then (k, v) else p) k' = mapLookup m k' := by
  induction m with
  | nil => rfl
  | cons p m' ih =>
    simp only [List.map_cons]
    by_cases hp : p.1 = k
    · rw [if_pos hp, mapLookup_cons, mapLookup_cons]
      rw [if_neg (by simp; exact Ne.symm hne), if_neg (by rw [hp]; exact Ne.symm hne)]
      exact ih
    · rw [if_neg hp, mapLookup_cons, mapLookup_cons]
      by_cases hpk : p.1 = k'
      · rw [if_pos hpk, if_pos hpk]
      · rw [if_neg hpk, if_neg hpk]
        exact ih

theorem mapLookup_map_replace_eq {α : Type} (m : List (Str × α)) (k : Str) (v : α)
    (h : mapHasKey m k = true) :
    mapLookup (m.map fun p => if p.1 = k then (k, v) else p) k = some v := by
  induction m with
  | nil => simp [mapHasKey] at h
  | cons p m' ih =>
    simp only [List.map_cons]
    by_cases hp : p.1 = k
    · rw [if_pos hp, mapLookup_cons, if_pos (by simp)]
    · rw [if_neg hp, mapLookup_cons, if_neg hp]
      apply ih
      simp only [mapHasKey, List.any_cons, Bool.or_eq_true, decide_eq_true_eq] at h
      rcases h with h | h
      · exact absurd h hp
      · exact h

theorem mapLookup_append_single_none {α : Type} (m : List (Str × α)) (k k' : Str) (v : α)
    (h : mapLookup m k' = none) :
    mapLookup (m ++ [(k, v)]) k' = if k' = k then some v else none := by
  induction m with
  | nil =>
    rw [List.nil_append, mapLookup_cons]
    by_cases hk : k' = k
    · rw [if_pos (by simp [hk]), if_pos hk]
    · rw [if_neg (by simp; exact Ne.symm hk), if_neg hk]
      rfl
  | cons p m' ih =>
    rw [mapLookup_cons] at h
    rw [List.cons_append, mapLookup_cons]
    by_cases hp : p.1 = k'
    · rw [if_pos hp] at h
      exact absurd h (by simp)
    · rw [if_neg hp] at h ⊢
      exact ih h

theorem mapLookup_insert {α : Type} (m : List (Str × α)) (k k' : Str) (v : α) :
    mapLookup (mapInsert m k v) k' = if k' = k then some v else mapLookup m k' := by
  unfold mapInsert
  by_cases h : mapHasKey m k
  · rw [if_pos h]
    by_cases hk : k' = k
    · subst hk
      rw [if_pos rfl]
      exact mapLookup_map_replace_eq m k' v h
    · rw [if_neg hk]
      exact mapLookup_map_replace_ne m k k' v hk
  · rw [if_neg h]
    by_cases hk : k' = k
    · subst hk
      have hnone : mapLookup m k' = none :=
        mapLookup_eq_none_of_not_hasKey m k' (by simp [h])
      rw [mapLookup_append_single_none m k' k' v hnone, if_pos rfl, if_pos rfl]
    · rw [if_neg hk]
      rcases hf : mapLookup m k' with _ | q
      · rw [mapLookup_append_single_none m k k' v hf, if_neg hk]
      · -- lookup hits inside m; appending does not change it
        clear h
        induction m with
        | nil => rw [mapLookup_nil] at hf; exact absurd hf (by simp)
        | cons p m' ih =>
          rw [mapLookup_cons] at hf
          rw [List.cons_append, mapLookup_cons]
          by_cases hp : p.1 = k'
          · rw [if_pos hp] at hf ⊢
            exact hf
          · rw [if_neg hp] at hf ⊢
            exact ih hf

theorem mapLookup_mem {α : Type} (m : List (Str × α)) (k : Str) (v : α)
    (h : mapLookup m k = some v) : ∃ p ∈ m, p.1 = k ∧ p.2 = v := by
  induction m with
  | nil => rw [mapLookup_nil] at h; exact absurd h (by simp)
  | cons p m' ih =>
    rw [mapLookup_cons] at h
    by_cases hp : p.1 = k
    · rw [if_pos hp] at h
      exact ⟨p, by simp, hp, Option.some.inj h⟩
    · rw [if_neg hp] at h
      obtain ⟨q, hq, hk, hv⟩ := ih h
      exact ⟨q, by simp [hq], hk, hv⟩

theorem mapLookup_isSome_of_mem_keys {α : Type} (m : List (Str × α)) (k : Str)
    (h : k ∈ mapKeys m) : ∃ v, mapLookup m k = some v := by
  induction m with
  | nil => simp [mapKeys] at h
  | cons p m' ih =>
    rw [mapLookup_cons]
    by_cases hp : p.1 = k
    · exact ⟨p.2, by rw [if_pos hp]⟩
    · rw [if_neg hp]
      apply ih
      simp [mapKeys] at h ⊢
      rcases h with h | h
      · exact absurd h.symm hp
      · exact h

theorem buildDedup_lookup_mem (l : List IP) (m : List (Str × IP)) (k : Str) (v : IP)
    (h : mapLookup (l.foldl (fun m2 a => mapInsert m2 (ipKey a) a) m) k = some v) :
    (v ∈ l ∧ ipKey v = k) ∨ mapLookup m k = some v := by
  induction l generalizing m with
  | nil => exact Or.inr h
  | cons a l' ih =>
    rw [List.foldl_cons] at h
    rcases ih _ h with ⟨hv, hk⟩ | hm
    · exact Or.inl ⟨by simp [hv], hk⟩
    · rw [mapLookup_insert] at hm
      by_cases hk : k = ipKey a
      · rw [if_pos hk] at hm
        exact Or.inl ⟨by simp [← Option.some.inj hm], by rw [← Option.some.inj hm, hk]⟩
      · rw [if_neg hk] at hm
        exact Or.inr hm

theorem buildDedup_mem_keys (l : List IP) (m : List (Str × IP)) (k : Str) :
    k ∈ mapKeys (l.foldl (fun m2 a => mapInsert m2 (ipKey a) a) m) ↔
      k ∈ mapKeys m ∨ ∃ a ∈ l, ipKey a = k := by
  induction l generalizing m with
  | nil => simp
  | cons a l' ih =>
    rw [List.foldl_cons, ih]
    rw [mem_mapKeys_insert]
    constructor
    · rintro (⟨hm | he⟩ | ⟨b, hb, hk⟩)
      · exact Or.inl hm
      · exact Or.inr ⟨a, by simp, he.symm⟩
      · exact Or.inr ⟨b, by simp [hb], hk⟩
    · rintro (hm | ⟨b, hb, hk⟩)
      · exact Or.inl (Or.inl hm)
      · rcases List.mem_cons.1 hb with rfl | hb'
        · exact Or.inl (Or.inr hk.symm)
        · exact Or.inr ⟨b, hb', hk⟩

theorem buildDedup_nodup_keys (l : List IP) (m : List (Str × IP))
    (h : (mapKeys m).Nodup) :
    (mapKeys (l.foldl (fun m2 a => mapInsert m2 (ipKey a) a) m)).Nodup := by
  induction l generalizing m with
  | nil => exact h
  | cons a l' ih =>
    rw [List.foldl_cons]
    exact ih _ (nodup_mapKeys_insert _ _ _ h)

theorem filterMap_lookup_spec (dedup : List (Str × IP)) (S : List Str)
    (h : ∀ k ∈ S, ∃ v, mapLookup dedup k = some v ∧ ipKey v = k) :
    (S.filterMap fun k => mapLookup dedup k).map ipKey = S ∧
      ∀ v ∈ S.filterMap fun k => mapLookup dedup k, ∃ k ∈ S, mapLookup dedup k = some v := by
  induction S with
  | nil => simp
  | cons k S' ih =>
    obtain ⟨v, hv, hkv⟩ := h k (by simp)
    obtain ⟨ih1, ih2⟩ := ih fun k2 hk2 => h k2 (by simp [hk2])
    simp only [List.filterMap_cons, hv]
    constructor
    · simp only [List.map_cons, ih1, hkv]
    · intro w hw
      rcases List.mem_cons.1 hw with rfl | hw'
      · exact ⟨k, by simp, hv⟩
      · obtain ⟨k2, hk2, hl⟩ := ih2 w hw'
        exact ⟨k2, by simp [hk2], hl⟩

theorem cleanupRecord_perm (l l2 : List IP) (hp : l.Perm l2)
    (hinj : ∀ a ∈ l, ∀ b ∈ l, ipKey a = ipKey b → a = b) :
    cleanupRecord l = cleanupRecord l2 := by
  unfold cleanupRecord buildDedup
  dsimp only
  have hmem : ∀ k, k ∈ mapKeys (l.foldl (fun m2 a => mapInsert m2 (ipKey a) a) []) ↔
      k ∈ mapKeys (l2.foldl (fun m2 a => mapInsert m2 (ipKey a) a) []) := by
    intro k
    rw [buildDedup_mem_keys, buildDedup_mem_keys]
    constructor
    · rintro (h | ⟨a, ha, hk⟩)
      · simp [mapKeys] at h
      · exact Or.inr ⟨a, hp.mem_iff.1 ha, hk⟩
    · rintro (h | ⟨a, ha, hk⟩)
      · simp [mapKeys] at h
      · exact Or.inr ⟨a, hp.mem_iff.2 ha, hk⟩
  have hnd1 := buildDedup_nodup_keys l [] (by simp [mapKeys])
  have hnd2 := buildDedup_nodup_keys l2 [] (by simp [mapKeys])
  have hkperm : (mapKeys (l.foldl (fun m2 a => mapInsert m2 (ipKey a) a) [])).Perm
      (mapKeys (l2.foldl (fun m2 a => mapInsert m2 (ipKey a) a) [])) :=
    (List.perm_ext_iff_of_nodup hnd1 hnd2).2 hmem
  have hsort : sortStrs (mapKeys (l.foldl (fun m2 a => mapInsert m2 (ipKey a) a) [])) =
      sortStrs (mapKeys (l2.foldl (fun m2 a => mapInsert m2 (ipKey a) a) [])) := by
    unfold sortStrs
    refine List.eq_of_perm_of_sorted ?_ (List.sorted_insertionSort _ _)
      (List.sorted_insertionSort _ _)
    exact ((List.perm_insertionSort _ _).trans hkperm).trans
      (List.perm_insertionSort _ _).symm
  rw [hsort]
  apply List.filterMap_congr
  intro k hk
  have hk2 : k ∈ mapKeys (l2.foldl (fun m2 a => mapInsert m2 (ipKey a) a) []) :=
    (List.perm_insertionSort _ _).subset hk
  have hk1 : k ∈ mapKeys (l.foldl (fun m2 a => mapInsert m2 (ipKey a) a) []) :=
    (hmem k).2 hk2
  obtain ⟨v1, hv1⟩ := mapLookup_isSome_of_mem_keys _ k hk1
  obtain ⟨v2, hv2⟩ := mapLookup_isSome_of_mem_keys _ k hk2
  rcases buildDedup_lookup_mem l [] k v1 hv1 with ⟨hm1, hkk1⟩ | hbad
  · rcases buildDedup_lookup_mem l2 [] k v2 hv2 with ⟨hm2, hkk2⟩ | hbad
    · have : v1 = v2 := hinj v1 hm1 v2 (hp.mem_iff.2 hm2) (by rw [hkk1, hkk2])
      rw [hv1, hv2, this]
    · rw [mapLookup_nil] at hbad; exact absurd hbad (by simp)
  · rw [mapLookup_nil] at hbad; exact absurd hbad (by simp)

theorem cleanupRecord_shape (l : List IP) :
    ((cleanupRecord l).map ipKey).Sorted (· < ·) ∧
      (∀ k, k ∈ (cleanupRecord l).map ipKey ↔ ∃ a ∈ l, ipKey a = k) ∧
      ∀ v ∈ cleanupRecord l, v ∈ l := by
  unfold cleanupRecord buildDedup
  dsimp only
  set dd := l.foldl (fun m2 a => mapInsert m2 (ipKey a) a) [] with hdd
  have hnd : (mapKeys dd).Nodup := buildDedup_nodup_keys l [] (by simp [mapKeys])
  have hSperm : (sortStrs (mapKeys dd)).Perm (mapKeys dd) := List.perm_insertionSort _ _
  have hlook : ∀ k ∈ sortStrs (mapKeys dd), ∃ v, mapLookup dd k = some v ∧ ipKey v = k := by
    intro k hk
    obtain ⟨v, hv⟩ := mapLookup_isSome_of_mem_keys dd k (hSperm.subset hk)
    rcases buildDedup_lookup_mem l [] k v hv with ⟨hm, hkk⟩ | hbad
    · exact ⟨v, hv, hkk⟩
    · rw [mapLookup_nil] at hbad; exact absurd hbad (by simp)
  obtain ⟨hmapeq, hrep⟩ := filterMap_lookup_spec dd (sortStrs (mapKeys dd)) hlook
  refine ⟨?_, ?_, ?_⟩
  · rw [hmapeq]
    have hsorted : (sortStrs (mapKeys dd)).Sorted (· ≤ ·) := List.sorted_insertionSort _ _
    exact hsorted.lt_of_le (hSperm.symm.nodup hnd)
  · intro k
    rw [hmapeq]
    constructor
    · intro hk
      have := (buildDedup_mem_keys l [] k).1 (hSperm.subset hk)
      rcases this with h | h
      · simp [mapKeys] at h
      · exact h
    · intro h
      apply hSperm.mem_iff.2
      exact (buildDedup_mem_keys l [] k).2 (Or.inr h)
  · intro v hv
    obtain ⟨k, hk, hl⟩ := hrep v hv
    rcases buildDedup_lookup_mem l [] k v hl with ⟨hm, _⟩ | hbad
    · exact hm
    · rw [mapLookup_nil] at hbad; exact absurd hbad (by simp)

theorem wf_flatten (tbl : NodeMap) (hwf : ∀ p ∈ tbl, nodeWF p.2) :
    (∀ a ∈ (tbl.map fun p => p.2.external).flatten, wfIP a) ∧
      ∀ a ∈ (tbl.map fun p => p.2.internal).flatten, wfIP a := by
  constructor <;>
  · intro a ha
    rw [List.mem_flatten] at ha
    obtain ⟨L, hL, haL⟩ := ha
    obtain ⟨p, hp, rfl⟩ := List.mem_map.1 hL
    first
      | exact (hwf p hp).2 a haL
      | exact (hwf p hp).1 a haL

theorem inj_of_wf (l : List IP) (h : ∀ a ∈ l, wfIP a) :
    ∀ a ∈ l, ∀ b ∈ l, ipKey a = ipKey b → a = b :=
  fun a ha b hb hk => ipKey_inj_wf a b (h a ha) (h b hb) hk

/-- C2: for every membership table (whose addresses have the shapes
net.ParseIP can produce: nil or 16 bytes) and every permutation of its
iteration order, the External and Internal projections are byte-identical;
each projection lists exactly one representative per canonical key
(`To16().String()`), with the canonical keys strictly sorted, every key of
a table address represented, and every representative drawn from the
table. -/
theorem claimC2_projection_determinism (tbl tbl2 : NodeMap) (hperm : tbl.Perm tbl2)
    (hwf : ∀ p ∈ tbl, nodeWF p.2) :
    externalRecord tbl = externalRecord tbl2 ∧
    internalRecord tbl = internalRecord tbl2 ∧
    ((externalRecord tbl).ips.map ipKey).Sorted (· < ·) ∧
    ((internalRecord tbl).ips.map ipKey).Sorted (· < ·) ∧
    (∀ k, k ∈ (externalRecord tbl).ips.map ipKey ↔
      ∃ a, (∃ p ∈ tbl, a ∈ p.2.external) ∧ ipKey a = k) ∧
    (∀ k, k ∈ (internalRecord tbl).ips.map ipKey ↔
      ∃ a, (∃ p ∈ tbl, a ∈ p.2.internal) ∧ ipKey a = k) ∧
    (∀ v ∈ (externalRecord tbl).ips, ∃ p ∈ tbl, v ∈ p.2.external) ∧
    (∀ v ∈ (internalRecord tbl).ips, ∃ p ∈ tbl, v ∈ p.2.internal) := by
  obtain ⟨hwfe, hwfi⟩ := wf_flatten tbl hwf
  have hpermE : ((tbl.map fun p => p.2.external).flatten).Perm
      ((tbl2.map fun p => p.2.external).flatten) := (hperm.map _).flatten
  have hpermI : ((tbl.map fun p => p.2.internal).flatten).Perm
      ((tbl2.map fun p => p.2.internal).flatten) := (hperm.map _).flatten
  have hmemE : ∀ a, a ∈ (tbl.map fun p => p.2.external).flatten ↔
      ∃ p ∈ tbl, a ∈ p.2.external := by
    intro a
    rw [List.mem_flatten]
    constructor
    · rintro ⟨L, hL, haL⟩
      obtain ⟨p, hp, rfl⟩ := List.mem_map.1 hL
      exact ⟨p, hp, haL⟩
    · rintro ⟨p, hp, haL⟩
      exact ⟨p.2.external, List.mem_map.2 ⟨p, hp, rfl⟩, haL⟩
  have hmemI : ∀ a, a ∈ (tbl.map fun p => p.2.internal).flatten ↔
      ∃ p ∈ tbl, a ∈ p.2.internal := by
    intro a
    rw [List.mem_flatten]
    constructor
    · rintro ⟨L, hL, haL⟩
      obtain ⟨p, hp, rfl⟩ := List.mem_map.1 hL
      exact ⟨p, hp, haL⟩
    · rintro ⟨p, hp, haL⟩
      exact ⟨p.2.internal, List.mem_map.2 ⟨p, hp, rfl⟩, haL⟩
  obtain ⟨hs1, hs2, hs3⟩ := cleanupRecord_shape ((tbl.map fun p => p.2.external).flatten)
  obtain ⟨ht1, ht2, ht3⟩ := cleanupRecord_shape ((tbl.map fun p => p.2.internal).flatten)
  refine ⟨?_, ?_, hs1, ht1, ?_, ?_, ?_, ?_⟩
  · unfold externalRecord
    rw [cleanupRecord_perm _ _ hpermE (inj_of_wf _ hwfe)]
  · unfold internalRecord
    rw [cleanupRecord_perm _ _ hpermI (inj_of_wf _ hwfi)]
  · intro k
    rw [show (externalRecord tbl).ips = cleanupRecord ((tbl.map fun p => p.2.external).flatten)
      from rfl]
    rw [hs2 k]
    constructor
    · rintro ⟨a, ha, hk⟩
      exact ⟨a, (hmemE a).1 ha, hk⟩
    · rintro ⟨a, ha, hk⟩
      exact ⟨a, (hmemE a).2 ha, hk⟩
  · intro k
    rw [show (internalRecord tbl).ips = cleanupRecord ((tbl.map fun p => p.2.internal).flatten)
      from rfl]
    rw [ht2 k]
    constructor
    · rintro ⟨a, ha, hk⟩
      exact ⟨a, (hmemI a).1 ha, hk⟩
    · rintro ⟨a, ha, hk⟩
      exact ⟨a, (hmemI a).2 ha, hk⟩
  · intro v hv
    exact (hmemE v).1 (hs3 v hv)
  · intro v hv
    exact (hmemI v).1 (ht3 v hv)

theorem mutateNodes_nodes (nodes : NodeMap) (f : NodeMap → NodeMap) :
    (mutateNodes nodes f).1 = f nodes := rfl

theorem mutateNodes_changes_both (nodes : NodeMap) (f : NodeMap → NodeMap)
    (he : externalRecord (f nodes) ≠ externalRecord nodes)
    (hi : internalRecord (f nodes) ≠ internalRecord nodes) :
    (mutateNodes nodes f).2 = [internalRecord (f nodes), externalRecord (f nodes)] := by
  unfold mutateNodes
  dsimp only
  rw [if_pos (Ne.symm hi), if_pos (Ne.symm he)]
  rfl

theorem mutateNodes_changes_none (nodes : NodeMap) (f : NodeMap → NodeMap)
    (he : externalRecord (f nodes) = externalRecord nodes)
    (hi : internalRecord (f nodes) = internalRecord nodes) :
    (mutateNodes nodes f).2 = [] := by
  unfold mutateNodes
  dsimp only
  rw [if_neg (by rw [hi]; simp), if_neg (by rw [he]; simp)]
  rfl

/-- C1 counterexample: adding a member that carries one internal and one
external address to the empty registry changes both projections, yet the
first notification delivered carries the Internal projection and the
second the External one — not External first as claimed. -/
theorem claimC1_counterexample :
    externalRecord (storeAdd [] (RawObj.node ⟨strBytes "host-1", false, [],
        [⟨nodeExternalIPStr, strBytes "42.0.0.1"⟩,
         ⟨nodeInternalIPStr, strBytes "10.0.0.1"⟩]⟩)).1 ≠ externalRecord [] ∧
    internalRecord (storeAdd [] (RawObj.node ⟨strBytes "host-1", false, [],
        [⟨nodeExternalIPStr, strBytes "42.0.0.1"⟩,
         ⟨nodeInternalIPStr, strBytes "10.0.0.1"⟩]⟩)).1 ≠ internalRecord [] ∧
    (storeAdd [] (RawObj.node ⟨strBytes "host-1", false, [],
        [⟨nodeExternalIPStr, strBytes "42.0.0.1"⟩,
         ⟨nodeInternalIPStr, strBytes "10.0.0.1"⟩]⟩)).2.1.map Record.isInternal =
      [true, false] := by decide

/-- C1 amended: for every registry mutation (Add, Update, Delete, Replace)
after which both projections differ from their pre-mutation snapshots, the
INTERNAL projection is notified before the External projection (the
notification list is [internal, external]). -/
theorem claimC1_internal_notified_first (nodes : NodeMap) (obj : RawObj)
    (objs : List RawObj) :
    (externalRecord (storeAdd nodes obj).1 ≠ externalRecord nodes →
      internalRecord (storeAdd nodes obj).1 ≠ internalRecord nodes →
      (storeAdd nodes obj).2.1 =
        [internalRecord (storeAdd nodes obj).1, externalRecord (storeAdd nodes obj).1]) ∧
    (externalRecord (storeUpdate nodes obj).1 ≠ externalRecord nodes →
      internalRecord (storeUpdate nodes obj).1 ≠ internalRecord nodes →
      (storeUpdate nodes obj).2.1 =
        [internalRecord (storeUpdate nodes obj).1, externalRecord (storeUpdate nodes obj).1]) ∧
    (externalRecord (storeDelete nodes obj).1 ≠ externalRecord nodes →
      internalRecord (storeDelete nodes obj).1 ≠ internalRecord nodes →
      (storeDelete nodes obj).2.1 =
        [internalRecord (storeDelete nodes obj).1, externalRecord (storeDelete nodes obj).1]) ∧
    (externalRecord (storeReplace nodes objs).1 ≠ externalRecord nodes →
      internalRecord (storeReplace nodes objs).1 ≠ internalRecord nodes →
      (storeReplace nodes objs).2.1 =
        [internalRecord (storeReplace nodes objs).1,
          externalRecord (storeReplace nodes objs).1]) :=
  ⟨fun he hi => mutateNodes_changes_both nodes
      (fun ns => mapInsert ns (toNode obj).name (toNode obj)) he hi,
   fun he hi => mutateNodes_changes_both nodes
      (fun ns => mapInsert ns (toNode obj).name (toNode obj)) he hi,
   fun he hi => mutateNodes_changes_both nodes
      (fun ns => mapDelete ns (toNode obj).name) he hi,
   fun he hi => mutateNodes_changes_both nodes
      (fun _ => objs.foldl (fun m obj => mapInsert m (toNode obj).name (toNode obj)) []) he hi⟩

/-- Witness for the amended C1: the counterexample input discharges both
hypotheses of the Add conjunct. -/
theorem claimC1_internal_notified_first_witness :
    (storeAdd [] (RawObj.node ⟨strBytes "host-1", false, [],
        [⟨nodeExternalIPStr, strBytes "42.0.0.1"⟩,
         ⟨nodeInternalIPStr, strBytes "10.0.0.1"⟩]⟩)).2.1 =
      [internalRecord (storeAdd [] (RawObj.node ⟨strBytes "host-1", false, [],
        [⟨nodeExternalIPStr, strBytes "42.0.0.1"⟩,
         ⟨nodeInternalIPStr, strBytes "10.0.0.1"⟩]⟩)).1,
       externalRecord (storeAdd [] (RawObj.node ⟨strBytes "host-1", false, [],
        [⟨nodeExternalIPStr, strBytes "42.0.0.1"⟩,
         ⟨nodeInternalIPStr, strBytes "10.0.0.1"⟩]⟩)).1] :=
  (claimC1_internal_notified_first [] (RawObj.node ⟨strBytes "host-1", false, [],
      [⟨nodeExternalIPStr, strBytes "42.0.0.1"⟩,
       ⟨nodeInternalIPStr, strBytes "10.0.0.1"⟩]⟩) []).1 (by decide) (by decide)

/-- C6: Resync always delivers exactly two notifications, the External
projection first and the Internal projection second, whatever the state;
and any mutation (Add, Update, Delete, Replace) whose before and after
projection snapshots are equal delivers zero notifications. -/
theorem claimC6_resync_two_mutation_none (nodes : NodeMap) (obj : RawObj)
    (objs : List RawObj) :
    (storeResync nodes).1 = [externalRecord nodes, internalRecord nodes] ∧
    (storeResync nodes).1.length = 2 ∧
    (storeResync nodes).1.map Record.isInternal = [false, true] ∧
    (externalRecord (storeAdd nodes obj).1 = externalRecord nodes →
      internalRecord (storeAdd nodes obj).1 = internalRecord nodes →
      (storeAdd nodes obj).2.1 = []) ∧
    (externalRecord (storeUpdate nodes obj).1 = externalRecord nodes →
      internalRecord (storeUpdate nodes obj).1 = internalRecord nodes →
      (storeUpdate nodes obj).2.1 = []) ∧
    (externalRecord (storeDelete nodes obj).1 = externalRecord nodes →
      internalRecord (storeDelete nodes obj).1 = internalRecord nodes →
      (storeDelete nodes obj).2.1 = []) ∧
    (externalRecord (storeReplace nodes objs).1 = externalRecord nodes →
      internalRecord (storeReplace nodes objs).1 = internalRecord nodes →
      (storeReplace nodes objs).2.1 = []) :=
  ⟨rfl, rfl, rfl,
   fun he hi => mutateNodes_changes_none nodes
      (fun ns => mapInsert ns (toNode obj).name (toNode obj)) he hi,
   fun he hi => mutateNodes_changes_none nodes
      (fun ns => mapInsert ns (toNode obj).name (toNode obj)) he hi,
   fun he hi => mutateNodes_changes_none nodes
      (fun ns => mapDelete ns (toNode obj).name) he hi,
   fun he hi => mutateNodes_changes_none nodes
      (fun _ => objs.foldl (fun m obj => mapInsert m (toNode obj).name (toNode obj)) []) he hi⟩

/-- Witness for C6: an Update that rewrites the same member with the same
addresses leaves both projections unchanged and notifies nothing (this is
the spec's no-op update scenario). -/
theorem claimC6_resync_two_mutation_none_witness :
    (storeResync [(strBytes "host-1",
        ⟨strBytes "host-1", [], [[0, 0, 0, 0, 0, 0, 0, 0, 0, 0, 255, 255, 42, 0, 0, 1]]⟩)]).1 =
      [externalRecord [(strBytes "host-1",
        ⟨strBytes "host-1", [], [[0, 0, 0, 0, 0, 0, 0, 0, 0, 0, 255, 255, 42, 0, 0, 1]]⟩)],
       internalRecord [(strBytes "host-1",
        ⟨strBytes "host-1", [], [[0, 0, 0, 0, 0, 0, 0, 0, 0, 0, 255, 255, 42, 0, 0, 1]]⟩)]] ∧
    (storeUpdate [(strBytes "host-1",
        ⟨strBytes "host-1", [], [[0, 0, 0, 0, 0, 0, 0, 0, 0, 0, 255, 255, 42, 0, 0, 1]]⟩)]
      (RawObj.node ⟨strBytes "host-1", false, [],
        [⟨nodeExternalIPStr, strBytes "42.0.0.1"⟩]⟩)).2.1 = [] := by
  refine ⟨(claimC6_resync_two_mutation_none _ RawObj.wrongType []).1, ?_⟩
  exact (claimC6_resync_two_mutation_none
    [(strBytes "host-1",
      ⟨strBytes "host-1", [], [[0, 0, 0, 0, 0, 0, 0, 0, 0, 0, 255, 255, 42, 0, 0, 1]]⟩)]
    (RawObj.node ⟨strBytes "host-1", false, [],
      [⟨nodeExternalIPStr, strBytes "42.0.0.1"⟩]⟩) []).2.2.2.2.1 (by decide) (by decide)

/-- C10: Add and Update are extensionally equal: same resulting table,
same notification sequence, same nil return (the only difference in the
source is the op label used for metrics and tracing). -/
theorem claimC10_add_eq_update : ∀ (nodes : NodeMap) (obj : RawObj),
    storeAdd nodes obj = storeUpdate nodes obj := fun _ _ => rfl

/-- C4 (code evaluated at the failing input): a schedulable, ready member
reporting the unparseable external address "bogus" does NOT drop it: the
nil result of ParseIP is appended to the member's external list, and the
projection of a table holding that member contains the nil IP, keyed
"<nil>" — the address is not dropped as the spec claims. -/
theorem claimC4_unparseable_nil_not_dropped :
    toNode (RawObj.node ⟨strBytes "host-1", false, [],
        [⟨nodeExternalIPStr, strBytes "bogus"⟩]⟩) =
      ⟨strBytes "host-1", [], [[]]⟩ ∧
    (externalRecord [(strBytes "host-1", ⟨strBytes "host-1", [], [[]]⟩)]).ips = [[]] ∧
    ipKey [] = strBytes "<nil>" := by decide

/-- C5: a member marked unschedulable, or reporting a Ready condition
whose status is not "True", extracts to a Member with empty internal and
external address lists, and Add and Update still insert that Member into
the table under its name. -/
theorem claimC5_ineligible_empty_inserted (n : V1Node)
    (h : n.unschedulable = true ∨
      ∃ c ∈ n.conditions, c.condType = nodeReadyStr ∧ c.status ≠ conditionTrueStr) :
    toNode (RawObj.node n) = ⟨n.name, [], []⟩ ∧
    ∀ nodes : NodeMap,
      mapLookup (storeAdd nodes (RawObj.node n)).1 n.name = some ⟨n.name, [], []⟩ ∧
      mapLookup (storeUpdate nodes (RawObj.node n)).1 n.name = some ⟨n.name, [], []⟩ := by
  have ht : toNode (RawObj.node n) = ⟨n.name, [], []⟩ := by
    unfold toNode
    dsimp only
    rcases h with h | ⟨c, hc, hr, hs⟩
    · rw [if_pos h]
    · by_cases hu : n.unschedulable = true
      · rw [if_pos hu]
      · rw [if_neg hu,
          if_pos (by rw [List.any_eq_true]; exact ⟨c, hc, by simp [hr, hs]⟩)]
  refine ⟨ht, fun nodes => ?_⟩
  constructor
  · show mapLookup (mutateNodes nodes
      (fun ns => mapInsert ns (toNode (RawObj.node n)).name (toNode (RawObj.node n)))).1
        n.name = some ⟨n.name, [], []⟩
    rw [mutateNodes_nodes, ht]
    rw [mapLookup_insert]
    simp
  · show mapLookup (mutateNodes nodes
      (fun ns => mapInsert ns (toNode (RawObj.node n)).name (toNode (RawObj.node n)))).1
        n.name = some ⟨n.name, [], []⟩
    rw [mutateNodes_nodes, ht]
    rw [mapLookup_insert]
    simp

/-- Witness for C5: an unschedulable node reporting addresses extracts to
the empty-address member and is present in the table after Add. -/
theorem claimC5_ineligible_empty_inserted_witness :
    ((⟨strBytes "host-1", true, [],
        [⟨nodeExternalIPStr, strBytes "42.0.0.1"⟩]⟩ : V1Node).unschedulable = true ∨
      ∃ c ∈ (⟨strBytes "host-1", true, [],
        [⟨nodeExternalIPStr, strBytes "42.0.0.1"⟩]⟩ : V1Node).conditions,
        c.condType = nodeReadyStr ∧ c.status ≠ conditionTrueStr) ∧
    toNode (RawObj.node ⟨strBytes "host-1", true, [],
        [⟨nodeExternalIPStr, strBytes "42.0.0.1"⟩]⟩) =
      ⟨strBytes "host-1", [], []⟩ ∧
    mapLookup (storeAdd [] (RawObj.node ⟨strBytes "host-1", true, [],
        [⟨nodeExternalIPStr, strBytes "42.0.0.1"⟩]⟩)).1 (strBytes "host-1") =
      some ⟨strBytes "host-1", [], []⟩ := by
  refine ⟨by decide, ?_, ?_⟩
  · exact (claimC5_ineligible_empty_inserted _ (by decide)).1
  · exact ((claimC5_ineligible_empty_inserted _ (by decide)).2 []).1

/-- Witness for C2 at a two-entry table and its reversal; the same
external address appears under both members (once from each textual
form, "42.0.0.1" and "::ffff:42.0.0.1", which parse to the same 16
bytes), so the projections also exercise deduplication. -/
theorem claimC2_projection_determinism_witness :
    ([(strBytes "a", ⟨strBytes "a",
        [[0, 0, 0, 0, 0, 0, 0, 0, 0, 0, 255, 255, 10, 0, 0, 1]],
        [[0, 0, 0, 0, 0, 0, 0, 0, 0, 0, 255, 255, 42, 0, 0, 1]]⟩),
      (strBytes "b", ⟨strBytes "b", [],
        [[0, 0, 0, 0, 0, 0, 0, 0, 0, 0, 255, 255, 42, 0, 0, 1]]⟩)] : NodeMap).Perm
      [(strBytes "b", ⟨strBytes "b", [],
        [[0, 0, 0, 0, 0, 0, 0, 0, 0, 0, 255, 255, 42, 0, 0, 1]]⟩),
       (strBytes "a", ⟨strBytes "a",
        [[0, 0, 0, 0, 0, 0, 0, 0, 0, 0, 255, 255, 10, 0, 0, 1]],
        [[0, 0, 0, 0, 0, 0, 0, 0, 0, 0, 255, 255, 42, 0, 0, 1]]⟩)] ∧
    (∀ p ∈ ([(strBytes "a", ⟨strBytes "a",
        [[0, 0, 0, 0, 0, 0, 0, 0, 0, 0, 255, 255, 10, 0, 0, 1]],
        [[0, 0, 0, 0, 0, 0, 0, 0, 0, 0, 255, 255, 42, 0, 0, 1]]⟩),
      (strBytes "b", ⟨strBytes "b", [],
        [[0, 0, 0, 0, 0, 0, 0, 0, 0, 0, 255, 255, 42, 0, 0, 1]]⟩)] : NodeMap),
      nodeWF p.2) ∧
    externalRecord ([(strBytes "a", ⟨strBytes "a",
        [[0, 0, 0, 0, 0, 0, 0, 0, 0, 0, 255, 255, 10, 0, 0, 1]],
        [[0, 0, 0, 0, 0, 0, 0, 0, 0, 0, 255, 255, 42, 0, 0, 1]]⟩),
      (strBytes "b", ⟨strBytes "b", [],
        [[0, 0, 0, 0, 0, 0, 0, 0, 0, 0, 255, 255, 42, 0, 0, 1]]⟩)] : NodeMap) =
      externalRecord [(strBytes "b", ⟨strBytes "b", [],
        [[0, 0, 0, 0, 0, 0, 0, 0, 0, 0, 255, 255, 42, 0, 0, 1]]⟩),
       (strBytes "a", ⟨strBytes "a",
        [[0, 0, 0, 0, 0, 0, 0, 0, 0, 0, 255, 255, 10, 0, 0, 1]],
        [[0, 0, 0, 0, 0, 0, 0, 0, 0, 0, 255, 255, 42, 0, 0, 1]]⟩)] := by
  refine ⟨by decide, by decide, ?_⟩
  exact (claimC2_projection_determinism _ _ (by decide) (by decide)).1

theorem dedupNats_mem (l : List Nat) (i : Nat) : i ∈ dedupNats l ↔ i ∈ l := by
  have gen : ∀ l2 acc : List Nat,
      (i ∈ l2.foldl (fun acc n => if n ∈ acc then acc else acc ++ [n]) acc ↔
        i ∈ acc ∨ i ∈ l2) := by
    intro l2
    induction l2 with
    | nil => simp
    | cons n l' ih =>
      intro acc
      rw [List.foldl_cons]
      by_cases hn : n ∈ acc
      · rw [if_pos hn, ih]
        constructor
        · rintro (h | h)
          · exact Or.inl h
          · exact Or.inr (by simp [h])
        · rintro (h | h)
          · exact Or.inl h
          · rcases List.mem_cons.1 h with rfl | h'
            · exact Or.inl hn
            · exact Or.inr h'
      · rw [if_neg hn, ih]
        constructor
        · rintro (h | h)
          · rcases List.mem_append.1 h with h' | h'
            · exact Or.inl h'
            · simp at h'
              subst h'
              exact Or.inr (by simp)
          · exact Or.inr (by simp [h])
        · rintro (h | h)
          · exact Or.inl (by simp [h])
          · rcases List.mem_cons.1 h with rfl | h'
            · exact Or.inl (by simp)
            · exact Or.inr h'
  unfold dedupNats
  rw [gen l []]
  simp

theorem diffDNS_toCreate (desired : List IP) (existing : List (Str × Nat)) (a : IP) :
    a ∈ (diffDNS desired existing).2.1 ↔
      a ∈ desired ∧ ¬∃ p ∈ existing, p.1 = ipString a := by
  unfold diffDNS
  dsimp only
  rw [List.mem_filter]
  simp only [mapHasKey, List.any_eq_true, decide_eq_true_eq, Bool.not_eq_true,
    List.any_eq_false, decide_eq_false_iff_not]

theorem diffDNS_toDelete (desired : List IP) (existing : List (Str × Nat)) (i : Nat) :
    i ∈ (diffDNS desired existing).1 ↔
      ∃ p ∈ existing, p.2 = i ∧ p.1 ∉ desired.map ipString := by
  unfold diffDNS
  dsimp only
  rw [dedupNats_mem]
  simp only [List.mem_map, List.mem_filter]
  constructor
  · rintro ⟨p, ⟨hp, hna⟩, rfl⟩
    simp at hna
    exact ⟨p, hp, rfl, by simpa using hna⟩
  · rintro ⟨p, hp, rfl, hna⟩
    exact ⟨p, ⟨hp, by simpa using hna⟩, rfl⟩

theorem diffDNS_toDeleteAddrs (desired : List IP) (existing : List (Str × Nat)) (s : Str) :
    s ∈ (diffDNS desired existing).2.2 ↔
      ∃ p ∈ existing, p.1 = s ∧ s ∉ desired.map ipString := by
  unfold diffDNS
  dsimp only
  simp only [List.mem_map, List.mem_filter]
  constructor
  · rintro ⟨p, ⟨hp, hna⟩, rfl⟩
    simp at hna
    exact ⟨p, hp, rfl, by simpa using hna⟩
  · rintro ⟨p, hp, rfl, hna⟩
    exact ⟨p, ⟨hp, by simpa using hna⟩, rfl⟩

/-- C3: membership in diffDNS's outputs is exactly the symmetric
difference through net.IP.String, in particular the IPv4-mapped IPv6
form of an existing dotted-quad address (16 bytes
::ffff:1.2.3.4) yields neither a create nor a delete. -/
theorem claimC3_diff_symmetric_difference (desired : List IP)
    (existing : List (Str × Nat)) :
    (∀ a, a ∈ (diffDNS desired existing).2.1 ↔
      a ∈ desired ∧ ¬∃ p ∈ existing, p.1 = ipString a) ∧
    (∀ i, i ∈ (diffDNS desired existing).1 ↔
      ∃ p ∈ existing, p.2 = i ∧ p.1 ∉ desired.map ipString) ∧
    diffDNS [[0, 0, 0, 0, 0, 0, 0, 0, 0, 0, 255, 255, 1, 2, 3, 4]]
        [(strBytes "1.2.3.4", 1)] = ([], [], []) :=
  ⟨fun a => diffDNS_toCreate desired existing a,
   fun i => diffDNS_toDelete desired existing i,
   by decide⟩

/-- Witness for C3: the spec's diff examples, evaluated through the
theorem: deleting a stale address, creating a missing one, and the
representation-independent no-op. -/
theorem claimC3_diff_symmetric_difference_witness :
    diffDNS [[0, 0, 0, 0, 0, 0, 0, 0, 0, 0, 255, 255, 1, 2, 3, 4]]
        [(strBytes "1.2.3.4", 1)] = ([], [], []) ∧
    ((1 : Nat) ∈ (diffDNS [] [(strBytes "1.2.3.4", 1)]).1 ↔
      ∃ p ∈ [(strBytes "1.2.3.4", 1)], p.2 = 1 ∧
        p.1 ∉ ([] : List IP).map ipString) ∧
    (1 : Nat) ∈ (diffDNS [] [(strBytes "1.2.3.4", 1)]).1 := by
  refine ⟨(claimC3_diff_symmetric_difference [] []).2.2, ?_, ?_⟩
  · exact (claimC3_diff_symmetric_difference [] [(strBytes "1.2.3.4", 1)]).2.1 1
  · exact ((claimC3_diff_symmetric_difference [] [(strBytes "1.2.3.4", 1)]).2.1 1).2
      ⟨(strBytes "1.2.3.4", 1), by decide, by decide, by decide⟩

theorem runCreates_ops (rname : Str) (ttl : Nat) (oracle : Str → Option Str) :
    ∀ l : List IP, ∀ op ∈ (runCreates rname ttl oracle l).1,
      ∃ a ∈ l, op = DNSOp.create (if ipTo4 a = [] then strAAAA else strA) rname
        (ipString a) ttl := by
  intro l
  induction l with
  | nil => intro op hop; simp [runCreates] at hop
  | cons ip rest ih =>
    intro op hop
    rw [runCreates] at hop
    dsimp only at hop
    rcases ho : oracle (ipString ip) with _ | e
    · rw [ho] at hop
      dsimp only at hop
      rcases List.mem_cons.1 hop with rfl | hop'
      · exact ⟨ip, by simp, rfl⟩
      · obtain ⟨a, ha, he⟩ := ih op hop'
        exact ⟨a, by simp [ha], he⟩
    · rw [ho] at hop
      simp at hop

theorem runDeletes_ops (oracle : Nat → Option Str) :
    ∀ l : List Nat, ∀ op ∈ (runDeletes oracle l).1, ∃ i ∈ l, op = DNSOp.remove i := by
  intro l
  induction l with
  | nil => intro op hop; simp [runDeletes] at hop
  | cons i rest ih =>
    intro op hop
    rw [runDeletes] at hop
    dsimp only at hop
    rcases ho : oracle i with _ | e
    · rw [ho] at hop
      dsimp only at hop
      rcases List.mem_cons.1 hop with rfl | hop'
      · exact ⟨i, by simp, rfl⟩
      · obtain ⟨j, hj, he⟩ := ih op hop'
        exact ⟨j, by simp [hj], he⟩
    · rw [ho] at hop
      simp at hop

/-- C8: a single reconciliation pass never issues a create and a delete
for the same address: the created address strings are disjoint from the
deleted address strings, an address present in both desired and existing
is neither created nor deleted, and every provider operation UpdateDNS
issues comes from the diff's toCreate or toDelete lists. -/
theorem claimC8_create_delete_disjoint (desired : List IP) (existing : List (Str × Nat)) :
    (∀ a ∈ (diffDNS desired existing).2.1, ipString a ∉ (diffDNS desired existing).2.2) ∧
    (∀ s, s ∈ desired.map ipString → s ∈ mapKeys existing →
      s ∉ ((diffDNS desired existing).2.1).map ipString ∧
      s ∉ (diffDNS desired existing).2.2) ∧
    (∀ (pages : List (List DNSRecord × Bool)) (co : Str → Option Str)
        (dq : Nat → Option Str) (ttl : Nat) (record : Str),
      getRecords pages record = Except.ok existing →
      ∀ op ∈ (updateDNS pages co dq ttl record desired).1,
        (∃ a ∈ (diffDNS desired existing).2.1,
          op = DNSOp.create (if ipTo4 a = [] then strAAAA else strA) record
            (ipString a) ttl) ∨
        ∃ i ∈ (diffDNS desired existing).1, op = DNSOp.remove i) := by
  refine ⟨?_, ?_, ?_⟩
  · intro a ha hmem
    rw [diffDNS_toCreate] at ha
    rw [diffDNS_toDeleteAddrs] at hmem
    obtain ⟨p, hp, he, _⟩ := hmem
    exact ha.2 ⟨p, hp, he⟩
  · intro s hs hkeys
    constructor
    · intro hcon
      rw [List.mem_map] at hcon
      obtain ⟨a, ha, rfl⟩ := hcon
      rw [diffDNS_toCreate] at ha
      rw [mapKeys, List.mem_map] at hkeys
      obtain ⟨p, hp, he⟩ := hkeys
      exact ha.2 ⟨p, hp, he⟩
    · intro hcon
      rw [diffDNS_toDeleteAddrs] at hcon
      obtain ⟨p, hp, rfl, hnd⟩ := hcon
      exact hnd hs
  · intro pages co dq ttl record hget op hop
    unfold updateDNS at hop
    by_cases hrec : record = []
    · rw [if_pos hrec] at hop
      simp at hop
    · rw [if_neg hrec, hget] at hop
      dsimp only at hop
      rcases hc : (runCreates record ttl co (diffDNS desired existing).2.1).2 with _ | e
      · rw [hc] at hop
        dsimp only at hop
        rcases List.mem_append.1 hop with h | h
        · obtain ⟨a, ha, he⟩ := runCreates_ops record ttl co _ op h
          exact Or.inl ⟨a, ha, he⟩
        · obtain ⟨i, hi, he⟩ := runDeletes_ops dq _ op h
          exact Or.inr ⟨i, hi, he⟩
      · rw [hc] at hop
        dsimp only at hop
        obtain ⟨a, ha, he⟩ := runCreates_ops record ttl co _ op hop
        exact Or.inl ⟨a, ha, he⟩

/-- Witness for C8: an address present in both desired and existing is
untouched while a stale one is deleted. -/
theorem claimC8_create_delete_disjoint_witness :
    strBytes "1.2.3.4" ∈
      ([[0, 0, 0, 0, 0, 0, 0, 0, 0, 0, 255, 255, 1, 2, 3, 4]] : List IP).map ipString ∧
    strBytes "1.2.3.4" ∈ mapKeys [(strBytes "1.2.3.4", 1), (strBytes "9.9.9.9", 2)] ∧
    strBytes "1.2.3.4" ∉
      ((diffDNS [[0, 0, 0, 0, 0, 0, 0, 0, 0, 0, 255, 255, 1, 2, 3, 4]]
        [(strBytes "1.2.3.4", 1), (strBytes "9.9.9.9", 2)]).2.1).map ipString ∧
    strBytes "1.2.3.4" ∉
      (diffDNS [[0, 0, 0, 0, 0, 0, 0, 0, 0, 0, 255, 255, 1, 2, 3, 4]]
        [(strBytes "1.2.3.4", 1), (strBytes "9.9.9.9", 2)]).2.2 := by
  refine ⟨by decide, by decide, ?_⟩
  exact (claimC8_create_delete_disjoint
    [[0, 0, 0, 0, 0, 0, 0, 0, 0, 0, 255, 255, 1, 2, 3, 4]]
    [(strBytes "1.2.3.4", 1), (strBytes "9.9.9.9", 2)]).2.1
    (strBytes "1.2.3.4") (by decide) (by decide)

theorem runCreates_ok (rname : Str) (ttl : Nat) (oracle : Str → Option Str) :
    ∀ l : List IP, (∀ a ∈ l, oracle (ipString a) = none) →
      runCreates rname ttl oracle l =
        (l.map fun a => DNSOp.create (if ipTo4 a = [] then strAAAA else strA) rname
          (ipString a) ttl, none) := by
  intro l
  induction l with
  | nil => intro _; rfl
  | cons ip rest ih =>
    intro h
    rw [runCreates]
    dsimp only
    rw [h ip (by simp)]
    rw [ih fun a ha => h a (by simp [ha])]
    rfl

theorem runCreates_fail (rname : Str) (ttl : Nat) (oracle : Str → Option Str)
    (l2 : List IP) (a : IP) (e : Str) (hfail : oracle (ipString a) = some e) :
    ∀ l1 : List IP, (∀ b ∈ l1, oracle (ipString b) = none) →
      runCreates rname ttl oracle (l1 ++ a :: l2) =
        (l1.map fun b => DNSOp.create (if ipTo4 b = [] then strAAAA else strA) rname
          (ipString b) ttl,
         some (DNSErr.createFail (if ipTo4 a = [] then strAAAA else strA) (ipString a) e)) := by
  intro l1
  induction l1 with
  | nil =>
    intro _
    rw [List.nil_append, runCreates]
    dsimp only
    rw [hfail]
    rfl
  | cons b rest ih =>
    intro h
    rw [List.cons_append, runCreates]
    dsimp only
    rw [h b (by simp)]
    rw [ih fun c hc => h c (by simp [hc])]
    rfl

theorem runDeletes_ok (oracle : Nat → Option Str) :
    ∀ l : List Nat, (∀ i ∈ l, oracle i = none) →
      runDeletes oracle l = (l.map DNSOp.remove, none) := by
  intro l
  induction l with
  | nil => intro _; rfl
  | cons i rest ih =>
    intro h
    rw [runDeletes]
    dsimp only
    rw [h i (by simp)]
    rw [ih fun j hj => h j (by simp [hj])]
    rfl

theorem runDeletes_fail (oracle : Nat → Option Str) (l2 : List Nat) (i : Nat) (e : Str)
    (hfail : oracle i = some e) :
    ∀ l1 : List Nat, (∀ j ∈ l1, oracle j = none) →
      runDeletes oracle (l1 ++ i :: l2) =
        (l1.map DNSOp.remove, some (DNSErr.deleteFail i e)) := by
  intro l1
  induction l1 with
  | nil =>
    intro _
    rw [List.nil_append, runDeletes]
    dsimp only
    rw [hfail]
    rfl
  | cons j rest ih =>
    intro h
    rw [List.cons_append, runDeletes]
    dsimp only
    rw [h j (by simp)]
    rw [ih fun k hk => h k (by simp [hk])]
    rfl

/-- C7: when a create or delete call fails, UpdateDNS returns that
failure (wrapped) immediately: the applied operations are exactly the
successful ones issued before the failure — no later create or delete is
issued, no delete is issued after a create failure, and the operations
already applied are still applied (nothing is rolled back). -/
theorem claimC7_failfast_no_rollback (pages : List (List DNSRecord × Bool))
    (co : Str → Option Str) (dq : Nat → Option Str) (ttl : Nat) (record : Str)
    (desired : List IP) (existing : List (Str × Nat))
    (hrec : record ≠ []) (hget : getRecords pages record = Except.ok existing) :
    (∀ l1 a l2 e, (diffDNS desired existing).2.1 = l1 ++ a :: l2 →
      (∀ b ∈ l1, co (ipString b) = none) → co (ipString a) = some e →
      updateDNS pages co dq ttl record desired =
        (l1.map fun b => DNSOp.create (if ipTo4 b = [] then strAAAA else strA) record
          (ipString b) ttl,
         some (DNSErr.createFail (if ipTo4 a = [] then strAAAA else strA) (ipString a) e))) ∧
    (∀ l1 i l2 e, (diffDNS desired existing).1 = l1 ++ i :: l2 →
      (∀ b ∈ (diffDNS desired existing).2.1, co (ipString b) = none) →
      (∀ j ∈ l1, dq j = none) → dq i = some e →
      updateDNS pages co dq ttl record desired =
        ((diffDNS desired existing).2.1.map
            (fun b => DNSOp.create (if ipTo4 b = [] then strAAAA else strA) record
              (ipString b) ttl) ++ l1.map DNSOp.remove,
         some (DNSErr.deleteFail i e))) := by
  constructor
  · intro l1 a l2 e hsplit hok hfail
    unfold updateDNS
    rw [if_neg hrec, hget]
    dsimp only
    rw [hsplit, runCreates_fail record ttl co l2 a e hfail l1 hok]
  · intro l1 i l2 e hsplit hcok hok hfail
    unfold updateDNS
    rw [if_neg hrec, hget]
    dsimp only
    rw [runCreates_ok record ttl co _ hcok]
    dsimp only
    rw [hsplit, runDeletes_fail dq l2 i e hfail l1 hok]

/-- Witness for C7: a one-create one-delete diff where the delete fails;
the create already applied stays applied and the delete failure is
returned. -/
theorem claimC7_failfast_no_rollback_witness :
    (strBytes "x" ≠ ([] : Str)) ∧
    getRecords [([⟨strBytes "A", strBytes "x", strBytes "9.9.9.9", 7⟩], true)]
      (strBytes "x") = Except.ok [(strBytes "9.9.9.9", 7)] ∧
    updateDNS [([⟨strBytes "A", strBytes "x", strBytes "9.9.9.9", 7⟩], true)]
        (fun _ => none) (fun _ => some (strBytes "boom")) 60 (strBytes "x")
        [[0, 0, 0, 0, 0, 0, 0, 0, 0, 0, 255, 255, 1, 2, 3, 4]] =
      ([DNSOp.create strA (strBytes "x") (strBytes "1.2.3.4") 60],
       some (DNSErr.deleteFail 7 (strBytes "boom"))) := by
  refine ⟨by decide, rfl, ?_⟩
  have h := (claimC7_failfast_no_rollback
    [([⟨strBytes "A", strBytes "x", strBytes "9.9.9.9", 7⟩], true)]
    (fun _ => none) (fun _ => some (strBytes "boom")) 60 (strBytes "x")
    [[0, 0, 0, 0, 0, 0, 0, 0, 0, 0, 255, 255, 1, 2, 3, 4]]
    [(strBytes "9.9.9.9", 7)] (by decide) rfl).2
    [] 7 [] (strBytes "boom") (by decide) (fun b hb => rfl) (by decide) (by decide)
  rw [h]
  decide

theorem mem_mapInsert {α : Type} (m : List (Str × α)) (k : Str) (v : α) (p : Str × α)
    (h : p ∈ mapInsert m k v) : p ∈ m ∨ p = (k, v) := by
  unfold mapInsert at h
  by_cases hk : mapHasKey m k
  · rw [if_pos hk] at h
    obtain ⟨q, hq, he⟩ := List.mem_map.1 h
    by_cases hqk : q.1 = k
    · rw [if_pos hqk] at he
      exact Or.inr he.symm
    · rw [if_neg hqk] at he
      exact Or.inl (he ▸ hq)
  · rw [if_neg hk] at h
    rcases List.mem_append.1 h with h' | h'
    · exact Or.inl h'
    · simp at h'
      exact Or.inr h'

theorem recordsToSet_mem (name : Str) (p : Str × Nat) :
    ∀ (recs : List DNSRecord) (acc : List (Str × Nat)),
      p ∈ recordsToSet recs name acc →
      p ∈ acc ∨ ∃ r ∈ recs, ((r.rtype = strA ∨ r.rtype = strAAAA) ∧ r.rname = name) ∧
        r.rdata = p.1 ∧ r.rid = p.2 := by
  intro recs
  induction recs with
  | nil => intro acc h; exact Or.inl h
  | cons r rest ih =>
    intro acc h
    unfold recordsToSet at h
    rw [List.foldl_cons] at h
    by_cases hr : ((r.rtype = strA ∨ r.rtype = strAAAA) ∧ r.rname = name)
    · rw [if_pos hr] at h
      rcases ih _ h with hacc | ⟨r2, hr2, hm⟩
      · rcases mem_mapInsert _ _ _ _ hacc with h' | h'
        · exact Or.inl h'
        · exact Or.inr ⟨r, by simp, hr, by rw [h'], by rw [h']⟩
      · exact Or.inr ⟨r2, by simp [hr2], hm⟩
    · rw [if_neg hr] at h
      rcases ih _ h with hacc | ⟨r2, hr2, hm⟩
      · exact Or.inl hacc
      · exact Or.inr ⟨r2, by simp [hr2], hm⟩

theorem recordsToSet_mem_keys (name d : Str) :
    ∀ (recs : List DNSRecord) (acc : List (Str × Nat)),
      (d ∈ mapKeys (recordsToSet recs name acc) ↔
        d ∈ mapKeys acc ∨ ∃ r ∈ recs, ((r.rtype = strA ∨ r.rtype = strAAAA) ∧
          r.rname = name) ∧ r.rdata = d) := by
  intro recs
  induction recs with
  | nil => intro acc; simp [recordsToSet]
  | cons r rest ih =>
    intro acc
    unfold recordsToSet
    rw [List.foldl_cons]
    by_cases hr : ((r.rtype = strA ∨ r.rtype = strAAAA) ∧ r.rname = name)
    · rw [if_pos hr]
      have := ih (mapInsert acc r.rdata r.rid)
      unfold recordsToSet at this
      rw [this, mem_mapKeys_insert]
      constructor
      · rintro ((hm | he) | ⟨r2, hr2, hm⟩)
        · exact Or.inl hm
        · exact Or.inr ⟨r, by simp, hr, he.symm⟩
        · exact Or.inr ⟨r2, by simp [hr2], hm⟩
      · rintro (hm | ⟨r2, hr2, hm⟩)
        · exact Or.inl (Or.inl hm)
        · rcases List.mem_cons.1 hr2 with rfl | hr2'
          · exact Or.inl (Or.inr hm.2.symm)
          · exact Or.inr ⟨r2, hr2', hm⟩
    · rw [if_neg hr]
      have := ih acc
      unfold recordsToSet at this
      rw [this]
      constructor
      · rintro (hm | ⟨r2, hr2, hm⟩)
        · exact Or.inl hm
        · exact Or.inr ⟨r2, by simp [hr2], hm⟩
      · rintro (hm | ⟨r2, hr2, hm⟩)
        · exact Or.inl hm
        · rcases List.mem_cons.1 hr2 with rfl | hr2'
          · exact absurd hm.1 hr
          · exact Or.inr ⟨r2, hr2', hm⟩

/-- C9: when two distinct fetched records share one address for the
reconciled name, the built map keeps only one id for that address; if the
desired set still contains the address, the overwritten id is never a
delete candidate (the duplicate record is silently orphaned and survives),
and the surviving entry is not deleted either. -/
theorem claimC9_duplicate_record_survives (recs : List DNSRecord) (name d : Str)
    (desired : List IP) (id1 : Nat)
    (h1 : ∃ r ∈ recs, ((r.rtype = strA ∨ r.rtype = strAAAA) ∧ r.rname = name) ∧
      r.rdata = d ∧ r.rid = id1)
    (honly : ∀ r ∈ recs, r.rid = id1 → r.rdata = d)
    (hover : mapLookup (recordsToSet recs name []) d ≠ some id1)
    (hdes : d ∈ desired.map ipString) :
    getRecords [(recs, true)] name = Except.ok (recordsToSet recs name []) ∧
    (∃ id2, id2 ≠ id1 ∧ mapLookup (recordsToSet recs name []) d = some id2 ∧
      ∃ r ∈ recs, ((r.rtype = strA ∨ r.rtype = strAAAA) ∧ r.rname = name) ∧
        r.rdata = d ∧ r.rid = id2) ∧
    id1 ∉ (diffDNS desired (recordsToSet recs name [])).1 ∧
    d ∉ (diffDNS desired (recordsToSet recs name [])).2.2 := by
  refine ⟨rfl, ?_, ?_, ?_⟩
  · have hdk : d ∈ mapKeys (recordsToSet recs name []) := by
      rw [recordsToSet_mem_keys]
      obtain ⟨r, hr, hm, hd, _⟩ := h1
      exact Or.inr ⟨r, hr, hm, hd⟩
    obtain ⟨id2, hid2⟩ := mapLookup_isSome_of_mem_keys _ d hdk
    obtain ⟨p, hp, hp1, hp2⟩ := mapLookup_mem _ _ _ hid2
    rcases recordsToSet_mem name p recs [] hp with hbad | ⟨r, hr, hm, hrd, hri⟩
    · simp at hbad
    · refine ⟨id2, ?_, hid2, r, hr, hm, by rw [hrd, hp1], by rw [hri, hp2]⟩
      intro he
      rw [he] at hid2
      exact hover hid2
  · intro hcon
    rw [diffDNS_toDelete] at hcon
    obtain ⟨p, hp, hpid, hpnd⟩ := hcon
    rcases recordsToSet_mem name p recs [] hp with hbad | ⟨r, hr, _, hrd, hri⟩
    · simp at hbad
    · have hre : r.rdata = d := honly r hr (by rw [hri, hpid])
      rw [hre] at hrd
      rw [hrd] at hdes
      exact hpnd hdes
  · intro hcon
    rw [diffDNS_toDeleteAddrs] at hcon
    obtain ⟨q, hq, hqd, hqnd⟩ := hcon
    exact hqnd hdes

/-- Witness for C9: two A records for "x" both carrying 1.2.3.4 with ids
1 and 2; the map keeps id 2, id 1 is orphaned and never deleted while
1.2.3.4 stays desired. -/
theorem claimC9_duplicate_record_survives_witness :
    (∃ r ∈ [(⟨strBytes "A", strBytes "x", strBytes "1.2.3.4", 1⟩ : DNSRecord),
            ⟨strBytes "A", strBytes "x", strBytes "1.2.3.4", 2⟩],
      ((r.rtype = strA ∨ r.rtype = strAAAA) ∧ r.rname = strBytes "x") ∧
        r.rdata = strBytes "1.2.3.4" ∧ r.rid = 1) ∧
    mapLookup (recordsToSet [⟨strBytes "A", strBytes "x", strBytes "1.2.3.4", 1⟩,
        ⟨strBytes "A", strBytes "x", strBytes "1.2.3.4", 2⟩] (strBytes "x") [])
      (strBytes "1.2.3.4") ≠ some 1 ∧
    (1 : Nat) ∉ (diffDNS [[0, 0, 0, 0, 0, 0, 0, 0, 0, 0, 255, 255, 1, 2, 3, 4]]
      (recordsToSet [⟨strBytes "A", strBytes "x", strBytes "1.2.3.4", 1⟩,
        ⟨strBytes "A", strBytes "x", strBytes "1.2.3.4", 2⟩] (strBytes "x") [])).1 := by
  refine ⟨by decide, by decide, ?_⟩
  exact (claimC9_duplicate_record_survives
    [⟨strBytes "A", strBytes "x", strBytes "1.2.3.4", 1⟩,
     ⟨strBytes "A", strBytes "x", strBytes "1.2.3.4", 2⟩]
    (strBytes "x") (strBytes "1.2.3.4")
    [[0, 0, 0, 0, 0, 0, 0, 0, 0, 0, 255, 255, 1, 2, 3, 4]] 1
    (by decide) (by decide) (by decide) (by decide)).2.2.1

end NodeDNS
